import Mathlib

/-!
Verification of the figure-segmentation pipeline of `scripts/extract_vectors.py`
(GhostPDF-Bundle).  The Python source is shallowly embedded: rectangles become
rational-coordinate records, PyMuPDF geometry primitives (`width`, `height`,
`is_empty`, `intersects`, `|`) are translated following PyMuPDF's semantics,
and each Python function of the pipeline becomes an executable Lean function
with the same name.  Python's `while` loops are realised with explicit fuel or
well-founded recursion; object identity (`id(...)`) is realised with positional
indices or tagged sums, mirroring the fact that distinct list entries are
distinct Python objects.
-/

attribute [local semireducible] Rat.add Rat.sub Rat.mul Rat.inv Rat.ofScientific

namespace GhostPDF

/-- Axis-aligned rectangle with rational coordinates, modelling `fitz.Rect`
(PDF points).  PyMuPDF does not normalise rectangles on construction, so
`x0 ≤ x1` is not an invariant of the type. -/
structure Rect where
  x0 : ℚ
  y0 : ℚ
  x1 : ℚ
  y1 : ℚ
deriving DecidableEq

/-- `fitz.Rect.width`: PyMuPDF returns the absolute difference. -/
def Rect.width (r : Rect) : ℚ := |r.x1 - r.x0|

/-- `fitz.Rect.height`: PyMuPDF returns the absolute difference. -/
def Rect.height (r : Rect) : ℚ := |r.y1 - r.y0|

/-- `fitz.Rect.is_empty`: true when `x0 ≥ x1` or `y0 ≥ y1`. -/
def Rect.is_empty (r : Rect) : Bool := decide (r.x1 ≤ r.x0) || decide (r.y1 ≤ r.y0)

/-- `fitz.Rect.__and__` (`r & s`): intersection rectangle. -/
def Rect.inter (r s : Rect) : Rect :=
  ⟨max r.x0 s.x0, max r.y0 s.y0, min r.x1 s.x1, min r.y1 s.y1⟩

/-- `fitz.Rect.intersects`: the common rectangle is non-empty (PyMuPDF returns
`False` outright when either rectangle is empty). -/
def Rect.intersects (r s : Rect) : Bool :=
  !r.is_empty && !s.is_empty && !(r.inter s).is_empty

/-- `fitz.Rect.__or__` (`r | s`) via `Rect.include_rect`: an empty operand
(`x1 ≤ x0` or `y1 ≤ y0`) is ignored — the right operand is tested first, so
a union with an empty rect returns the other rect (and with both empty, the
left one); otherwise the coordinatewise bounding box. -/
def Rect.un (r s : Rect) : Rect :=
  if s.is_empty then r
  else if r.is_empty then s
  else ⟨min r.x0 s.x0, min r.y0 s.y0, max r.x1 s.x1, max r.y1 s.y1⟩

/-- The coordinatewise bounding box of two rectangles: the value of
`Rect.un` on two non-empty operands (the lattice join used by the
confluence argument). -/
def Rect.join (r s : Rect) : Rect :=
  ⟨min r.x0 s.x0, min r.y0 s.y0, max r.x1 s.x1, max r.y1 s.y1⟩

/-- The vertical gap computed inside `rects_are_close` (lines 12-14). -/
def v_dist (r1 r2 : Rect) : ℚ :=
  if r1.y1 < r2.y0 then r2.y0 - r1.y1
  else if r2.y1 < r1.y0 then r1.y0 - r2.y1 else 0

/-- The horizontal gap computed inside `rects_are_close` (lines 16-18). -/
def h_dist (r1 r2 : Rect) : ℚ :=
  if r1.x1 < r2.x0 then r2.x0 - r1.x1
  else if r2.x1 < r1.x0 then r1.x0 - r2.x1 else 0

/-- `rects_are_close(r1, r2, threshold)` (extract_vectors.py lines 6-20). -/
def rects_are_close (r1 r2 : Rect) (threshold : ℚ) : Bool :=
  if r1.intersects r2 then true
  else decide (v_dist r1 r2 < threshold) && decide (h_dist r1 r2 < threshold)

/-- The merge decision inside `merge_rects` (lines 36-47): proximity plus the
gutter-guard veto on centroids straddling the midline. -/
def merge_should (current candidate : Rect) (threshold : ℚ) (gm : Option ℚ) : Bool :=
  if rects_are_close current candidate threshold then
    match gm with
    | none => true
    | some m =>
      let u_cx := (current.x0 + current.x1) / 2
      let obj_cx := (candidate.x0 + candidate.x1) / 2
      if (u_cx < m ∧ obj_cx > m) ∨ (obj_cx < m ∧ u_cx > m) then false else true
  else false

/-- The inner candidate scan of `merge_rects` (lines 31-54): greedily absorb
mergeable candidates into `current`, keep the rest in order; the Bool records
whether any merge happened. -/
def merge_absorb (threshold : ℚ) (gm : Option ℚ) :
    Rect → List Rect → Rect × List Rect × Bool
  | current, [] => (current, [], false)
  | current, c :: rest =>
    if merge_should current c threshold gm then
      let t := merge_absorb threshold gm (current.un c) rest
      (t.1, t.2.1, true)
    else
      let t := merge_absorb threshold gm current rest
      (t.1, c :: t.2.1, t.2.2)

/-- One full pass of the outer loop of `merge_rects` (lines 29-56).  The
fuel argument makes the recursion structural; fuel `l.length` always
suffices because `merge_absorb` never lengthens the remainder. -/
def merge_pass (threshold : ℚ) (gm : Option ℚ) : ℕ → List Rect → List Rect × Bool
  | _, [] => ([], false)
  | 0, c :: rest => (c :: rest, false)
  | fuel + 1, c :: rest =>
    let t := merge_absorb threshold gm c rest
    let u := merge_pass threshold gm fuel t.2.1
    (t.1 :: u.1, t.2.2 || u.2)

/-- The `while changed` loop of `merge_rects` (lines 26-56), with fuel; each
changed pass strictly shrinks the cluster list, so fuel `rects.length`
suffices to reach the fixpoint. -/
def merge_loop (threshold : ℚ) (gm : Option ℚ) : ℕ → List Rect → List Rect
  | 0, cs => cs
  | fuel + 1, cs =>
    let t := merge_pass threshold gm cs.length cs
    if t.2 then merge_loop threshold gm fuel t.1 else t.1

/-- `merge_rects(rects, threshold, gutter_midline)` (lines 22-57). -/
def merge_rects (rects : List Rect) (threshold : ℚ) (gm : Option ℚ) : List Rect :=
  if rects.isEmpty then [] else merge_loop threshold gm rects.length rects

/-- Rectangles for the C4 counterexample: `c4A` sits left of the gutter
midline 50, `c4B` right of it, and `c4C` is centred exactly on it. -/
def c4A : Rect := ⟨0, 0, 10, 10⟩

def c4B : Rect := ⟨90, 0, 100, 10⟩

def c4C : Rect := ⟨40, 0, 60, 10⟩

/-- Degenerate (PyMuPDF-empty) rectangles for the second half of the C4
counterexample: `fitz.Rect.__or__` ignores empty operands, so merging with
them is order dependent even without a gutter midline. -/
def c4D1 : Rect := ⟨0, 0, 0, 0⟩

def c4D2 : Rect := ⟨20, 0, 20, 10⟩

/-- A non-degenerate rectangle: `x0 < x1` and `y0 < y1`, i.e. non-empty in
PyMuPDF's sense.  The rects fed to `merge_rects` by the pipeline pass the
`width ≥ 0.5 / height ≥ 0.5` (drawings) or `width > 1 / height > 1`
(images) filters, so they satisfy this. -/
def Rect.valid (r : Rect) : Prop := r.x0 < r.x1 ∧ r.y0 < r.y1

/-- One merge step of the clustering process without a gutter midline, as a
relation on multisets of rectangles: two close valid rectangles are replaced
by their union. -/
def MergeStep (t : ℚ) (s s' : Multiset Rect) : Prop :=
  ∃ x y r, x.valid ∧ y.valid ∧ rects_are_close x y t = true ∧
    s = x ::ₘ y ::ₘ r ∧ s' = x.join y ::ₘ r

/-- `has_subfigure_labels_nearby` inner loop (lines 123-129): count label
rects close to `rect`, returning `True` as soon as the count reaches 2. -/
def has_subfigure_labels_go (rect : Rect) (threshold : ℚ) :
    List Rect → ℕ → Bool
  | [], _ => false
  | lr :: rest, n =>
    if rects_are_close rect lr threshold then
      if 2 ≤ n + 1 then true
      else has_subfigure_labels_go rect threshold rest (n + 1)
    else has_subfigure_labels_go rect threshold rest n

/-- `has_subfigure_labels_nearby(rect, label_rects, threshold)`
(lines 121-130). -/
def has_subfigure_labels_nearby (rect : Rect) (label_rects : List Rect)
    (threshold : ℚ) : Bool :=
  has_subfigure_labels_go rect threshold label_rects 0

/-- The label-adaptive `(horizontal_threshold, diagonal_threshold)` pair of
the aligned expansion (lines 419-426). -/
def adaptive_thresholds (u obj : Rect) (label_rects : List Rect) : ℚ × ℚ :=
  let has_labels := has_subfigure_labels_nearby u label_rects 200 ||
    has_subfigure_labels_nearby obj label_rects 200
  (if has_labels then 150 else 40, if has_labels then 150 else 40)

/-- Integer rectangle, modelling `fitz.IRect`. -/
structure IRect where
  x0 : ℕ
  y0 : ℕ
  x1 : ℕ
  y1 : ℕ
deriving DecidableEq

/-- A grayscale pixmap: one byte per pixel, row-major `samples`. -/
structure GrayPixmap where
  width : ℕ
  height : ℕ
  samples : List ℕ

/-- The running extremes of `trim_pixmap` (line 70). -/
structure TrimState where
  found : Bool
  xmin : ℕ
  ymin : ℕ
  xmax : ℕ
  ymax : ℕ

/-- One pixel update of `trim_pixmap` (lines 77-82). -/
def trim_update (y x v : ℕ) (st : TrimState) : TrimState :=
  if v < 250 then
    { found := true,
      xmin := if x < st.xmin then x else st.xmin,
      xmax := if st.xmax < x then x else st.xmax,
      ymin := if y < st.ymin then y else st.ymin,
      ymax := if st.ymax < y then y else st.ymax }
  else st

/-- The `enumerate(row)` scan of one row (lines 76-82). -/
def trim_row_go (y : ℕ) : TrimState → ℕ → List ℕ → TrimState
  | st, _, [] => st
  | st, x, v :: rest => trim_row_go y (trim_update y x v st) (x + 1) rest

/-- `samples[y*width : (y+1)*width]` (line 75). -/
def pixRow (pix : GrayPixmap) (y : ℕ) : List ℕ :=
  (pix.samples.drop (y * pix.width)).take pix.width

/-- The row loop of `trim_pixmap` (lines 73-82), rows processed in order. -/
def trim_rows (pix : GrayPixmap) : TrimState → List ℕ → TrimState
  | st, [] => st
  | st, y :: ys => trim_rows pix (trim_row_go y st 0 (pixRow pix y)) ys

/-- `trim_pixmap(pix)` (lines 59-87) on an already-grayscale pixmap. -/
def trim_pixmap (pix : GrayPixmap) : Option IRect :=
  let st := trim_rows pix ⟨false, pix.width, pix.height, 0, 0⟩
    (List.range pix.height)
  if st.found then some ⟨st.xmin, st.ymin, st.xmax + 1, st.ymax + 1⟩ else none

/-- The gray value of pixel `(x, y)`. -/
def pixelAt (pix : GrayPixmap) (x y : ℕ) : ℕ :=
  pix.samples.getD (y * pix.width + x) 0

/-! Text model: ASCII strings, Python `str.strip`, and hand-rolled matchers
for the few fixed regular expressions of the source. -/

/-- Python whitespace (`\s`, `str.strip`), ASCII range. -/
def isPySpace (c : Char) : Bool :=
  c = ' ' || c = '\t' || c = '\n' || c = '\r' || c = '\x0B' || c = '\x0C'

def isDigitC (c : Char) : Bool := decide ('0' ≤ c) && decide (c ≤ '9')

def isLowerC (c : Char) : Bool := decide ('a' ≤ c) && decide (c ≤ 'z')

def isUpperC (c : Char) : Bool := decide ('A' ≤ c) && decide (c ≤ 'Z')

/-- `[a-z0-9]` under `re.IGNORECASE`. -/
def isLabelAlnum (c : Char) : Bool := isLowerC c || isUpperC c || isDigitC c

/-- Regex word character (`\w`, ASCII): letters, digits, underscore. -/
def isWordC (c : Char) : Bool :=
  isLowerC c || isUpperC c || isDigitC c || c = '_'

/-- `str.strip()`: drop Python whitespace from both ends. -/
def stripChars (cs : List Char) : List Char :=
  ((cs.dropWhile isPySpace).reverse.dropWhile isPySpace).reverse

def pyStrip (s : String) : String := ⟨stripChars s.data⟩

/-- Case-insensitive prefix: `pat` is given lowercase; returns the remainder
after the prefix when it matches. -/
def ciPrefixDrop : List Char → List Char → Option (List Char)
  | [], cs => some cs
  | _ :: _, [] => none
  | p :: ps, c :: cs => if c.toLower = p then ciPrefixDrop ps cs else none

/-- `\s+\d` at the head (the `\d+` tail only needs its first digit). -/
def wsPlusDigit (cs : List Char) : Bool :=
  match cs with
  | [] => false
  | c :: rest =>
    isPySpace c &&
      (match rest.dropWhile isPySpace with
       | d :: _ => isDigitC d
       | [] => false)

/-- `\s*\d` at the head. -/
def wsStarDigit (cs : List Char) : Bool :=
  match cs.dropWhile isPySpace with
  | d :: _ => isDigitC d
  | [] => false

/-- `\.?\s*\d` at the head (greedy dot is safe: the empty alternative dies
on the dot immediately). -/
def dotWsDigit (cs : List Char) : Bool :=
  match cs with
  | '.' :: rest => wsStarDigit rest
  | _ => wsStarDigit cs

/-- `\.?\s+\d` at the head. -/
def dotWsPlusDigit (cs : List Char) : Bool :=
  match cs with
  | '.' :: rest => wsPlusDigit rest
  | _ => wsPlusDigit cs

/-- `re.search(r'(?i)figure\s+\d+', s)`. -/
def searchFigureNum : List Char → Bool
  | [] => false
  | c :: rest =>
    (match ciPrefixDrop ['f', 'i', 'g', 'u', 'r', 'e'] (c :: rest) with
     | some tail => wsPlusDigit tail
     | none => false) || searchFigureNum rest

/-- `re.search(r'(?i)fig\.?\s+\d+', s)`. -/
def searchFigNum : List Char → Bool
  | [] => false
  | c :: rest =>
    (match ciPrefixDrop ['f', 'i', 'g'] (c :: rest) with
     | some tail => dotWsPlusDigit tail
     | none => false) || searchFigNum rest

/-- `re.search(r'\([a-z]\)', s)` (case sensitive). -/
def searchParenLower : List Char → Bool
  | [] => false
  | c :: rest =>
    (match c :: rest with
     | '(' :: d :: ')' :: _ => isLowerC d
     | _ => false) || searchParenLower rest

/-- `re.search(r'\b[a-z]\)', s)`: a word boundary, then a lowercase letter,
then a closing parenthesis.  `prevWord` says whether the previous character
was a word character (false at the start of the string). -/
def searchBoundLowerParen (prevWord : Bool) : List Char → Bool
  | [] => false
  | c :: rest =>
    ((!prevWord) && isLowerC c &&
      (match rest with
       | ')' :: _ => true
       | _ => false)) || searchBoundLowerParen (isWordC c) rest

/-- Whether any of the four `fig_patterns` (lines 92-97) matches. -/
def matchesFigPattern (s : String) : Bool :=
  searchFigureNum s.data || searchFigNum s.data ||
    searchParenLower s.data || searchBoundLowerParen false s.data

/-- Consume `[a-z0-9]+` (case-insensitive), greedy. -/
def parseAlnumPlus : List Char → Option (List Char)
  | [] => none
  | c :: rest =>
    if isLabelAlnum c then some (rest.dropWhile isLabelAlnum) else none

/-- `re.match(r'^(\([a-z0-9]+\)\s*)+$', s, re.IGNORECASE)` on a string
with no trailing newline: one or more `(alnum+)` groups separated by
whitespace, consuming the whole string. -/
def isPureLabelGo : ℕ → List Char → Bool
  | 0, _ => false
  | _ + 1, [] => false
  | fuel + 1, c :: rest =>
    if c = '(' then
      match parseAlnumPlus rest with
      | some rest2 =>
        match rest2 with
        | ')' :: rest3 =>
          let rest4 := rest3.dropWhile isPySpace
          if rest4.isEmpty then true else isPureLabelGo fuel rest4
        | _ => false
      | none => false
    else false

def isPureLabel (s : String) : Bool := isPureLabelGo s.data.length s.data

/-- A text span of `page.get_text("dict")`. -/
structure Span where
  text : String
  bbox : Rect
deriving DecidableEq

/-- A text line of `page.get_text("dict")`. -/
structure TextLn where
  bbox : Rect
  spans : List Span
deriving DecidableEq

/-- A block of `page.get_text("dict")`; `btype = 0` for text blocks. -/
structure Block where
  btype : ℕ
  bbox : Rect
  lines : List TextLn
deriving DecidableEq

/-- `block_text` accumulation of `find_figure_captions` (lines 100-103):
`" " + span text` for every span of every line, unstripped. -/
def blockConcatText (b : Block) : String :=
  String.join ((b.lines.flatMap (fun l => l.spans)).map (fun s => " " ++ s.text))

/-- A detected caption: stripped text, block bbox, and type
`"label"`/`"caption"`. -/
structure Caption where
  text : String
  rect : Rect
  ctype : String
deriving DecidableEq

/-- The per-block body of `find_figure_captions` (lines 98-118). -/
def captionOfBlock (b : Block) : Option Caption :=
  if b.btype ≠ 0 then none
  else
    let block_text := blockConcatText b
    if matchesFigPattern block_text then
      let stripped := pyStrip block_text
      some { text := stripped, rect := b.bbox,
             ctype :=
               if stripped.length ≤ 5 || isPureLabel stripped then "label"
               else "caption" }
    else none

/-- `find_figure_captions(page)` (lines 89-119), over the text blocks. -/
def find_figure_captions (blocks : List Block) : List Caption :=
  blocks.filterMap captionOfBlock

/-- The concrete block for the C8 witness: one line, one span. -/
def c8block : Block :=
  ⟨0, ⟨100, 500, 300, 515⟩,
    [⟨⟨100, 500, 300, 515⟩, [⟨"Figure 1: results", ⟨100, 500, 300, 515⟩⟩]⟩]⟩

/-- `re.match(r'^(?:Figure|Fig)\.?\s*\d+', s, re.IGNORECASE)`
(lines 280 and 801): the caption-likeness test. -/
def captionLikeChars (cs : List Char) : Bool :=
  (match ciPrefixDrop ['f', 'i', 'g', 'u', 'r', 'e'] cs with
   | some tail => dotWsDigit tail
   | none => false) ||
  (match ciPrefixDrop ['f', 'i', 'g'] cs with
   | some tail => dotWsDigit tail
   | none => false)

def matchCaptionLike (s : String) : Bool := captionLikeChars s.data

/-- A text line as stored in `all_text_blocks` (line 273): rect, stripped
length, stripped text. -/
structure TextItem where
  rect : Rect
  len : ℕ
  text : String
deriving DecidableEq

/-- Figure column of the Crop and Erase Renderer (lines 697-707). -/
inductive FigCol
  | full
  | left
  | right
deriving DecidableEq

/-- `fig_col` computation (lines 697-707). -/
def fig_col_of (page_w page_mid_x : ℚ) (rect : Rect) : FigCol :=
  let fig_cx := rect.x0 + rect.width / 2
  if rect.width > page_w * 0.6 then .full
  else if rect.x0 < page_mid_x - 75 ∧ rect.x1 > page_mid_x + 75 then .full
  else if fig_cx < page_mid_x then .left
  else .right

/-- The environment of one erase decision: figure column, gutter midline,
visual-core bounds `vis_*` (lines 716-719) and the crop rect. -/
structure EraseEnv where
  fig_col : FigCol
  page_mid_x : ℚ
  vis_x0 : ℚ
  vis_y0 : ℚ
  vis_x1 : ℚ
  vis_y1 : ℚ
  rect : Rect

/-- The mutable decision triple `(should_erase, reason, is_side_erasure)`
(lines 741-743). -/
structure EraseTriple where
  should_erase : Bool
  reason : String
  is_side : Bool
deriving DecidableEq

/-- CASE 0, the opposite-column guard (lines 745-757). -/
def erase_case0 (env : EraseEnv) (item : TextItem) : EraseTriple :=
  if env.fig_col ≠ FigCol.full then
    let obs_cx := (item.rect.x0 + item.rect.x1) / 2
    if env.fig_col = FigCol.left ∧ obs_cx > env.page_mid_x then
      ⟨true, "Opposite Col (Right)", true⟩
    else if env.fig_col = FigCol.right ∧ obs_cx < env.page_mid_x then
      ⟨true, "Opposite Col (Left)", true⟩
    else ⟨false, "", false⟩
  else ⟨false, "", false⟩

/-- CASE 1 and the side cases, the single `if`/`elif` chain of
lines 759-794, applied to the state left by CASE 0. -/
def erase_chain (env : EraseEnv) (item : TextItem) (st : EraseTriple) :
    EraseTriple :=
  let top_strict_y := env.vis_y0 - 10
  let top_buffer_y := env.vis_y0
  let right_safe_x := env.vis_x1 + 8
  let left_safe_x := env.vis_x0 - 50
  if st.should_erase = false ∧ item.rect.y1 < top_strict_y then
    if item.len > 5 then ⟨true, "Top Strict", true⟩ else st
  else if item.rect.y1 < top_buffer_y then
    if item.len > 15 then ⟨true, "Top Buffer", st.is_side⟩ else st
  else if item.rect.y0 < env.vis_y0 + 10 then
    if item.len > 25 then ⟨true, "Top Inner Guard", st.is_side⟩ else st
  else if item.rect.x0 > right_safe_x then
    ⟨true, "Right Side", true⟩
  else if item.rect.x1 < left_safe_x then
    if item.len > 25 then ⟨true, "Left Side", true⟩ else st
  else st

/-- The erase decision for one text line inside one region: `none` when the
line is skipped or not selected, otherwise the final
`(reason, is_side_erasure)` pair (lines 734-794). -/
def erase_decision (env : EraseEnv) (item : TextItem) :
    Option (String × Bool) :=
  if ¬(item.rect.intersects env.rect = true) then none
  else if item.rect.y0 > env.vis_y1 then none
  else
    let st := erase_chain env item (erase_case0 env item)
    if st.should_erase then some (st.reason, st.is_side) else none

/-- Whether the line is actually painted over, after the caption-protection
check of lines 796-806. -/
def erase_paint (env : EraseEnv) (item : TextItem) : Bool :=
  match erase_decision env item with
  | none => false
  | some (_, is_side) =>
    if matchCaptionLike item.text ∧ ¬(is_side = true) then false else true

/-- Environment for the C2 counterexample: a full-width figure region with
visual core `(100,100)-(300,300)`. -/
def c2env : EraseEnv := ⟨.full, 306, 100, 100, 300, 300, ⟨50, 40, 350, 350⟩⟩

/-- A caption-like line strictly above the visual core. -/
def c2item : TextItem := ⟨⟨100, 50, 250, 60⟩, 12, "Figure 2: ab"⟩

/-- A caption-like line in the top buffer zone (0-10 pt above the core). -/
def c2bufitem : TextItem :=
  ⟨⟨100, 92, 250, 98⟩, 20, "Figure 12: blah blah"⟩

/-! The per-page pipeline of `extract_vectors` (lines 151-647): harvesting,
gutter detection, clustering, caption association and orphan resolution.
Input text is modelled as the type-0 blocks of `page.get_text("dict")`; the
`page.get_text("blocks")` view is derived from it (bbox plus lines joined
with newlines) as PyMuPDF does.  Object identity (`id(...)`) is modelled by
positional indices; the ids of `caption_groups` dicts and of the fresh
`all_captions_for_matching` dicts are distinct Python objects, modelled by
the two sides of a sum type. -/

/-- A vector path of `page.get_drawings()`. -/
structure PathObj where
  rect : Rect
  color : Option (ℚ × ℚ × ℚ)
  fill : Option (ℚ × ℚ × ℚ)
deriving DecidableEq

/-- An embedded image (`page.get_images` entry with its placement rects). -/
structure ImageObj where
  xref : ℕ
  rects : List Rect
deriving DecidableEq

/-- The page input: dimensions, drawings, images and text blocks. -/
structure Page where
  width : ℚ
  height : ℚ
  drawings : List PathObj
  images : List ImageObj
  blocks : List Block
deriving DecidableEq

/-- The raw text of one line (spans concatenated), as in
`page.get_text("blocks")`. -/
def lineRawText (l : TextLn) : String := String.join (l.spans.map (fun s => s.text))

/-- The `page.get_text("blocks")` view: bbox and newline-joined text per
text block. -/
def blocksView (page : Page) : List (Rect × String) :=
  (page.blocks.filter (fun b => b.btype = 0)).map
    (fun b => (b.bbox, String.intercalate "\n" (b.lines.map lineRawText)))

def maxQ : List ℚ → ℚ
  | [] => 0
  | a :: as => as.foldl max a

def minQ : List ℚ → ℚ
  | [] => 0
  | a :: as => as.foldl min a

/-- `detect_gutter_midline(p)` (lines 199-211). -/
def detect_gutter_midline (page : Page) : ℚ :=
  let blocks := blocksView page
  if blocks.isEmpty then page.width / 2
  else
    let left_text := blocks.filter
      (fun b => (pyStrip b.2).length > 30 ∧ b.1.x1 < page.width * 0.55)
    let right_text := blocks.filter
      (fun b => (pyStrip b.2).length > 30 ∧ b.1.x0 > page.width * 0.45)
    if left_text.length > 2 ∧ right_text.length > 2 then
      (maxQ (left_text.map (fun b => b.1.x1)) +
        minQ (right_text.map (fun b => b.1.x0))) / 2
    else page.width / 2

/-- The text-density gutter test (lines 217-226). -/
def gutter_guard_text (page : Page) (mid : ℚ) : Bool :=
  let blocks := blocksView page
  let left_count := (blocks.filter
    (fun b => (pyStrip b.2).length > 50 ∧ b.1.x1 < mid)).length
  let right_count := (blocks.filter
    (fun b => (pyStrip b.2).length > 50 ∧ ¬(b.1.x1 < mid) ∧ b.1.x0 > mid)).length
  decide (left_count > 1) && decide (right_count > 1)

/-- The side-by-side caption gutter test (lines 228-236). -/
def gutter_guard_captions (main_captions : List Caption) (mid : ℚ) : Bool :=
  main_captions.any (fun lc => decide (lc.rect.x1 < mid) &&
    main_captions.any (fun rc => decide (rc.rect.x0 > mid) &&
      decide (|lc.rect.y0 - rc.rect.y0| < 300)))

/-- The text-harvest products of lines 245-290. -/
structure Harvested where
  text_rects : List Rect
  all_text_blocks : List TextItem
  obstacles : List Rect
  strict_blocks : List Rect

/-- The span filter feeding `text_rects` (lines 263-269). -/
def spanKeep (page_h : ℚ) (caption_rects : List Rect) (s : Span) : Bool :=
  if s.bbox.y0 < 40 ∨ s.bbox.y1 > page_h - 40 then false
  else if caption_rects.any (fun cr => s.bbox.intersects cr) then false
  else decide ((pyStrip s.text).length > 0)

/-- Per-line cleaned text (lines 258-274): spans stripped and joined with a
leading space each, then stripped. -/
def blockCleanLines (b : Block) : List (Rect × String) :=
  b.lines.map (fun l =>
    (l.bbox, pyStrip (String.join (l.spans.map (fun s => " " ++ pyStrip s.text)))))

/-- Per-block cleaned text (lines 274-277): non-empty clean lines joined
with a leading space each, then stripped. -/
def blockCleanTxt (b : Block) : String :=
  pyStrip (String.join
    (((blockCleanLines b).filter (fun p => p.2 ≠ "")).map (fun p => " " ++ p.2)))

/-- The text harvest (lines 245-290). -/
def harvest (page : Page) (caption_rects : List Rect) : Harvested :=
  let tblocks := page.blocks.filter (fun b => b.btype = 0)
  { text_rects := tblocks.flatMap (fun b => b.lines.flatMap (fun l =>
      (l.spans.filter (spanKeep page.height caption_rects)).map (fun s => s.bbox)))
    all_text_blocks := tblocks.flatMap (fun b =>
      ((blockCleanLines b).filter (fun p => p.2 ≠ "")).map
        (fun p => ⟨p.1, p.2.length, p.2⟩))
    obstacles := tblocks.filterMap (fun b =>
      let ct := blockCleanTxt b
      if ct.length > 150 then
        if ct.length > 10 ∧ matchCaptionLike ct then none else some b.bbox
      else none)
    strict_blocks := tblocks.filterMap (fun b =>
      let ct := blockCleanTxt b
      if ct.length > 150 then
        if ct.length > 10 ∧ matchCaptionLike ct then none else some b.bbox
      else if ct.length > 50 then
        if caption_rects.any (fun cr => b.bbox.intersects cr) then none
        else some b.bbox
      else none) }

/-- Image rects kept for clustering (lines 158-165). -/
def page_image_rects (page : Page) : List (Rect × ℕ) :=
  page.images.flatMap (fun im =>
    (im.rects.filter (fun r => r.width > 1 ∧ r.height > 1)).map
      (fun r => (r, im.xref)))

/-- Path visibility (lines 171-178). -/
def pathVisible (p : PathObj) : Bool :=
  let has_stroke := p.color ≠ none ∧ p.color ≠ some (1, 1, 1)
  let has_fill := p.fill ≠ none ∧ p.fill ≠ some (1, 1, 1)
  decide (has_stroke ∨ has_fill)

/-- The candidate rects fed to the initial clustering (lines 168-182). -/
def harvestRects (page : Page) : List Rect :=
  (page.drawings.filterMap (fun p =>
    if p.rect.width < 0.5 ∨ p.rect.height < 0.5 then none
    else if pathVisible p then some p.rect else none)) ++
  (page_image_rects page).map (fun pr => pr.1)

/-- Label absorption for one visual object (lines 297-307). -/
def absorbLabels (strict_blocks : List Rect) (candidates : List Rect)
    (obj : Rect) : Rect :=
  candidates.foldl (fun current tr =>
    if strict_blocks.any (fun sb => tr.intersects sb) then current
    else if rects_are_close current tr 15 then current.un tr
    else current) obj

/-- Column zones of the associator. -/
inductive Zone
  | left
  | right
  | full
  | mixed
deriving DecidableEq

/-- `get_col_zone(rect)` (lines 321-338); the inner guards of the first two
Python `if`s fall through when false, which is equivalent to conjunction. -/
def get_col_zone (pw mid : ℚ) (rect : Rect) : Zone :=
  if rect.width > pw * 0.6 then .full
  else if rect.x1 < mid + 15 ∧ rect.x1 < mid + 60 ∧ rect.x1 ≤ mid + 5 then .left
  else if rect.x0 > mid - 15 ∧ rect.x0 > mid - 60 ∧ rect.x0 ≥ mid - 5 then .right
  else if rect.x0 < mid - 10 ∧ rect.x1 > mid + 10 then .mixed
  else if (rect.x0 + rect.x1) / 2 < mid then .left
  else .right

/-- Stable insertion: place `c` after every caption with `y0 ≤ c.y0`. -/
def insertByY (c : Caption) : List Caption → List Caption
  | [] => [c]
  | d :: ds => if d.rect.y0 ≤ c.rect.y0 then d :: insertByY c ds else c :: d :: ds

/-- `main_captions.sort(key=lambda c: c["rect"].y0)` (line 340): stable
ascending sort by `y0`. -/
def sortCaptionsByY (l : List Caption) : List Caption :=
  l.foldl (fun acc c => insertByY c acc) []

/-- A caption group (lines 476-523).  `capRect` and `members` record the
owning caption rect and the indices of the member visual objects; the code
keeps only `text` and `rect`. -/
structure CaptionGroup where
  text : String
  rect : Rect
  capRect : Rect
  members : List ℕ
deriving DecidableEq

/-- `col_ceilings` (line 341). -/
structure Ceilings where
  cleft : ℚ
  cright : ℚ
  cfull : ℚ
  cmixed : ℚ
deriving DecidableEq

/-- The associator state threaded through the caption loop. -/
structure AssocState where
  groups : List CaptionGroup
  used : Finset ℕ
  ceil : Ceilings

/-- The per-page context of the associator. -/
structure Ctx where
  pw : ℚ
  mid : ℚ
  gga : Bool
  obstacles : List Rect
  strict_blocks : List Rect
  label_rects : List Rect
  objs : List (ℕ × Rect)

/-- Caption zone with the gutter-guard override (lines 345-353). -/
def capZone (ctx : Ctx) (c_rect : Rect) : Zone :=
  let z := get_col_zone ctx.pw ctx.mid c_rect
  if ctx.gga ∧ z ≠ Zone.full ∧ z ≠ Zone.mixed then
    if (c_rect.x0 + c_rect.x1) / 2 < ctx.mid then .left else .right
  else z

/-- Search-ceiling seed from the column ceilings (lines 358-360). -/
def ceilingFor (ceil : Ceilings) (z : Zone) : ℚ :=
  let c0 := ceil.cfull
  let c1 := if z = Zone.left ∨ z = Zone.mixed then max c0 ceil.cleft else c0
  if z = Zone.right ∨ z = Zone.mixed then max c1 ceil.cright else c1

/-- Ceiling refinement by obstacles (lines 363-369). -/
def refineCeiling (ctx : Ctx) (c_col : Zone) (floor_y start : ℚ) : ℚ :=
  ctx.obstacles.foldl (fun ceiling obs =>
    let obs_col := get_col_zone ctx.pw ctx.mid obs
    if c_col ≠ Zone.full ∧ obs_col ≠ Zone.full ∧ c_col ≠ obs_col ∧
        obs_col ≠ Zone.mixed then ceiling
    else if obs.y1 < floor_y ∧ obs.y1 > ceiling then obs.y1
    else ceiling) start

/-- One step of the primary pick (lines 372-395). -/
def primaryPickStep (ctx : Ctx) (c_col : Zone) (floor_y ceiling_y : ℚ)
    (st : List (ℕ × Rect) × Finset ℕ) (p : ℕ × Rect) :
    List (ℕ × Rect) × Finset ℕ :=
  if p.1 ∈ st.2 then st
  else
    let obj_col := get_col_zone ctx.pw ctx.mid p.2
    let relevant : Bool :=
      if ctx.gga ∧ (c_col = Zone.left ∨ c_col = Zone.right) then
        if obj_col = Zone.full ∨ obj_col = Zone.mixed then false
        else decide (c_col = obj_col)
      else decide (c_col = Zone.full ∨ c_col = Zone.mixed ∨
        obj_col = Zone.full ∨ obj_col = Zone.mixed ∨ c_col = obj_col)
    if ¬relevant then st
    else
      let ocy := (p.2.y0 + p.2.y1) / 2
      if ocy < floor_y ∧ ocy > ceiling_y then (st.1 ++ [p], insert p.1 st.2)
      else st

/-- One step of the aligned expansion (lines 402-474). -/
def expandStep (ctx : Ctx) (st : List (ℕ × Rect) × Finset ℕ × Rect)
    (p : ℕ × Rect) : List (ℕ × Rect) × Finset ℕ × Rect :=
  let group := st.1
  let used := st.2.1
  let u := st.2.2
  if p.1 ∈ used then st
  else
    let obj := p.2
    let overlap := max 0 (min u.y1 obj.y1 - max u.y0 obj.y0)
    if ¬(overlap > obj.height * 0.5) then st
    else
      let x_dist := if obj.x1 < u.x0 then u.x0 - obj.x1
        else if u.x1 < obj.x0 then obj.x0 - u.x1 else 0
      let y_dist := if obj.y1 < u.y0 then u.y0 - obj.y1
        else if u.y1 < obj.y0 then obj.y0 - u.y1 else 0
      let dist := max x_dist y_dist
      let thresholds := adaptive_thresholds u obj ctx.label_rects
      let is_crossing := ctx.gga ∧
        (((u.x0 + u.x1) / 2 < ctx.mid ∧ (obj.x0 + obj.x1) / 2 > ctx.mid) ∨
         ((obj.x0 + obj.x1) / 2 < ctx.mid ∧ (u.x0 + u.x1) / 2 > ctx.mid))
      let should_merge : Bool :=
        if is_crossing then false
        else if x_dist > 0 ∧ y_dist ≤ 0 then decide (x_dist < thresholds.1)
        else if y_dist > 0 ∧ x_dist ≤ 0 then decide (y_dist < 150)
        else decide (dist < thresholds.2)
      if ¬(should_merge = true) then st
      else
        let gap_rect : Option Rect :=
          if dist > 25 then
            if obj.x1 < u.x0 then
              some ⟨obj.x1, min u.y0 obj.y0, u.x0, max u.y1 obj.y1⟩
            else if u.x1 < obj.x0 then
              some ⟨u.x1, min u.y0 obj.y0, obj.x0, max u.y1 obj.y1⟩
            else none
          else none
        match gap_rect with
        | some g =>
          if ctx.strict_blocks.any (fun sb => g.intersects sb) then st
          else (group ++ [p], insert p.1 used, u.un obj)
        | none => (group ++ [p], insert p.1 used, u.un obj)

/-- `union = group[0] | group[1] | ...` (lines 399-400 and 477-478). -/
def unionOf : List Rect → Rect
  | [] => ⟨0, 0, 0, 0⟩
  | r :: rest => rest.foldl Rect.un r

/-- `px_right` (lines 486-503). -/
def pxRight (ctx : Ctx) (union : Rect) : ℚ :=
  let px : ℚ := 20
  if ctx.gga then
    let union_cx := (union.x0 + union.x1) / 2
    if union_cx < ctx.mid ∧ union.x1 < ctx.mid - 20 then
      if (ctx.objs.map (fun pr => pr.2)).any (fun obj => obj.x1 > union.x1 - 30)
      then max px (ctx.mid - union.x1 - 10)
      else px
    else px
  else px

/-- `final_rect` (lines 505-518) with `px = 20`, `py = 24`. -/
def mk_final_rect (pw ec fwg : ℚ) (u : Rect) (pxr : ℚ) : Rect :=
  ⟨max 0 (u.x0 - 20), max ec (u.y0 - 24), min pw (u.x1 + pxr), min fwg (u.y1 + 24)⟩

/-- The primary pick followed (for non-empty picks) by the aligned
expansion (lines 371-474): the final group and updated used set. -/
def captionPickExpand (ctx : Ctx) (used : Finset ℕ) (c_col : Zone)
    (floor_y ceiling_y : ℚ) : List (ℕ × Rect) × Finset ℕ :=
  let pick := ctx.objs.foldl (primaryPickStep ctx c_col floor_y ceiling_y)
    ([], used)
  if pick.1 ≠ [] then
    let u0 := unionOf (pick.1.map (fun pr => pr.2))
    let ex := ctx.objs.foldl (expandStep ctx) (pick.1, pick.2, u0)
    (ex.1, ex.2.1)
  else pick

/-- Processing of one caption (lines 343-532). -/
def processCaption (ctx : Ctx) (st : AssocState) (cap : Caption) : AssocState :=
  let c_rect := cap.rect
  let c_col := capZone ctx c_rect
  let floor_y := c_rect.y0
  let ceiling_y := refineCeiling ctx c_col floor_y (ceilingFor st.ceil c_col)
  let after := captionPickExpand ctx st.used c_col floor_y ceiling_y
  let groups' :=
    if after.1 ≠ [] then
      let union := unionOf (after.1.map (fun pr => pr.2))
      st.groups ++ [⟨cap.text,
        mk_final_rect ctx.pw (max 40 (ceiling_y - 10)) (floor_y - 5) union
          (pxRight ctx union),
        c_rect, after.1.map (fun pr => pr.1)⟩]
    else st.groups
  let cl := st.ceil
  let ceil' :=
    if c_col = Zone.full then ⟨cl.cleft, cl.cright, c_rect.y1, cl.cmixed⟩
    else if c_col = Zone.mixed then ⟨c_rect.y1, c_rect.y1, cl.cfull, cl.cmixed⟩
    else if c_col = Zone.left then ⟨c_rect.y1, cl.cright, cl.cfull, cl.cmixed⟩
    else (⟨cl.cleft, c_rect.y1, cl.cfull, cl.cmixed⟩ : Ceilings)
  ⟨groups', after.2, ceil'⟩

/-- The caption association loop (lines 318-532). -/
def assocState (ctx : Ctx) (sorted_caps : List Caption) : AssocState :=
  sorted_caps.foldl (processCaption ctx) ⟨[], ∅, ⟨40, 40, 40, 40⟩⟩

/-- Identity of a caption-like dict: `inl k` for the k-th `caption_groups`
dict, `inr k` for the k-th fresh `all_captions_for_matching` dict (distinct
Python objects have distinct `id`s). -/
abbrev CapId := ℕ ⊕ ℕ

instance : BEq CapId := instBEqOfDecidableEq

/-- An `all_captions_for_matching` entry (lines 572-575). -/
structure MatchCap where
  text : String
  rect : Rect
  gid : CapId
deriving DecidableEq

/-- The first caption matching an orphan (lines 603-631), honouring the
per-object `captions_to_delete` skip list. -/
def orphanMatchFind (gga : Bool) (mid : ℚ) (orphan : Rect)
    (deleted : List CapId) (caps : List MatchCap) : Option MatchCap :=
  caps.find? (fun g =>
    if deleted.contains g.gid then false
    else
      let cap_rect := g.rect
      let orphan_cx := (orphan.x0 + orphan.x1) / 2
      let same_col :=
        if gga then
          (orphan_cx < mid ∧ cap_rect.x0 < mid) ∨
          (orphan_cx > mid ∧ cap_rect.x0 > mid)
        else |orphan_cx - (cap_rect.x0 + cap_rect.x1) / 2| < 100
      let is_below := cap_rect.y0 ≥ orphan.y1 - 150 ∧ cap_rect.y0 < orphan.y1 + 400
      let is_aligned := orphan.x0 < cap_rect.x1 + 50 ∧ orphan.x1 > cap_rect.x0 - 50
      decide (same_col ∧ is_below ∧ is_aligned))

/-- Processing one orphan rect of a loose object (lines 599-640); the state
is `(captions_to_delete, orphans_to_export)`, exports tagged with the source
object index. -/
def processOneOrphan (gga : Bool) (mid : ℚ) (caps : List MatchCap)
    (srcIdx : ℕ) (st : List CapId × List (ℕ × Rect)) (orphan : Rect) :
    List CapId × List (ℕ × Rect) :=
  match orphanMatchFind gga mid orphan st.1 caps with
  | some g =>
    let cropped : Rect := ⟨orphan.x0, orphan.y0, orphan.x1, g.rect.y0 - 5⟩
    (st.1 ++ [g.gid],
      if cropped.height > 20 then st.2 ++ [(srcIdx, cropped)] else st.2)
  | none =>
    if gga ∧ orphan.width < 15 then st
    else (st.1, st.2 ++ [(srcIdx, orphan)])

/-- The orphan-resolution state: exported orphans, the surviving
`final_captions_map` entries, and (for the record) every matched caption id. -/
structure OrphanState where
  exportsO : List (ℕ × Rect)
  groupsLeft : List (CapId × CaptionGroup)
  matched : List CapId

/-- Processing one visual object of the orphan loop (lines 580-645). -/
def processLooseObject (gga : Bool) (mid : ℚ) (caps : List MatchCap)
    (used : Finset ℕ) (st : OrphanState) (p : ℕ × Rect) : OrphanState :=
  if p.1 ∈ used then st
  else if ¬(p.2.width > 20 ∧ p.2.height > 20) then st
  else
    let orphans_from_obj :=
      if gga ∧ p.2.x0 < mid - 10 ∧ p.2.x1 > mid + 10 then
        (let lr : Rect := ⟨p.2.x0, p.2.y0, mid - 5, p.2.y1⟩
         let rr : Rect := ⟨mid + 5, p.2.y0, p.2.x1, p.2.y1⟩
         (if lr.width > 20 then [lr] else []) ++
         (if rr.width > 20 then [rr] else []))
      else [p.2]
    let res := orphans_from_obj.foldl (processOneOrphan gga mid caps p.1)
      (([] : List CapId), st.exportsO)
    ⟨res.2, st.groupsLeft.filter (fun g => decide (g.1 ∉ res.1)),
      st.matched ++ res.1⟩

/-- The result of the per-page pipeline. -/
structure PageResult where
  mid : ℚ
  gga : Bool
  visual_objects : List Rect
  caption_groups : List CaptionGroup
  used_final : Finset ℕ
  groups_after : List (CapId × CaptionGroup)
  orphans : List (ℕ × Rect)
  matchedCapIds : List CapId
  valid_final_rects : List Rect

/-- Association (lines 318-532) followed by orphan resolution (lines
570-647), assembled into the page result.  `ctx.objs` is the enumerated
`visual_objects` list, so `ctx.objs.map Prod.snd` is `visual_objects`
itself; the orphan loop of the code iterates that same list with the same
`gutter_guard_active` and `page_mid_x` as the associator. -/
def assembleResult (ctx : Ctx) (sorted : List Caption) : PageResult :=
  let assoc := assocState ctx sorted
  let capsM := sorted.enum.map (fun p => MatchCap.mk p.2.text p.2.rect (Sum.inr p.1))
  let groups0 := assoc.groups.enum.map (fun p => ((Sum.inl p.1 : CapId), p.2))
  let orph := ctx.objs.foldl
    (processLooseObject ctx.gga ctx.mid capsM assoc.used) ⟨[], groups0, []⟩
  { mid := ctx.mid
    gga := ctx.gga
    visual_objects := ctx.objs.map (fun pr => pr.2)
    caption_groups := assoc.groups
    used_final := assoc.used
    groups_after := orph.groupsLeft
    orphans := orph.exportsO
    matchedCapIds := orph.matched
    valid_final_rects := orph.groupsLeft.map (fun g => g.2.rect) ++
      orph.exportsO.map (fun pr => pr.2) }

/-- The association context of a page (lines 151-314): gutter state, text
harvest products and the enumerated visual objects. -/
def pageCtx (page : Page) : Ctx :=
  let captions := find_figure_captions page.blocks
  let caption_rects := captions.map (fun c => c.rect)
  let main_captions := captions.filter (fun c => c.ctype = "caption")
  let page_mid_x := detect_gutter_midline page
  let gga := gutter_guard_text page page_mid_x ||
    gutter_guard_captions main_captions page_mid_x
  let harvested := harvest page caption_rects
  let label_rects := (captions.filter (fun c => c.ctype = "label")).map
    (fun c => c.rect)
  let visual0 := merge_rects (harvestRects page) 15 none
  let cands := harvested.text_rects ++ label_rects
  let visual_objects :=
    if visual0 ≠ [] ∧ cands ≠ [] then
      merge_rects (visual0.map (absorbLabels harvested.strict_blocks cands)) 30
        (if gga then some page_mid_x else none)
    else visual0
  ⟨page.width, page_mid_x, gga, harvested.obstacles,
    harvested.strict_blocks, label_rects, visual_objects.enum⟩

/-- `main_captions` sorted by `y0` (line 340). -/
def pageSorted (page : Page) : List Caption :=
  sortCaptionsByY
    ((find_figure_captions page.blocks).filter (fun c => c.ctype = "caption"))

/-- The per-page pipeline of `extract_vectors` (lines 151-647), up to
`valid_final_rects`; a page without drawings is skipped by the code
(line 152) and yields the empty result. -/
def extract_vectors_page (page : Page) : PageResult :=
  if page.drawings.isEmpty then
    ⟨page.width / 2, false, [], [], ∅, [], [], [], []⟩
  else assembleResult (pageCtx page) (pageSorted page)

/-- C1 counterexample page: a single black-filled path sticking out of the
left page edge, no text. -/
def c1page : Page :=
  ⟨400, 700, [⟨⟨-50, 100, 100, 200⟩, none, some (0, 0, 0)⟩], [], []⟩

/-- A single-caption text block: "Figure 1: results" at the given bbox. -/
def capBlockAt (r : Rect) : Block :=
  ⟨0, r, [⟨r, [⟨"Figure 1: results", r⟩]⟩]⟩

/-- C6 counterexample page: one caption with a figure above it (filled in
association) and a second, loose drawing below the caption. -/
def c6page : Page :=
  ⟨400, 700,
   [⟨⟨100, 300, 300, 450⟩, none, some (0, 0, 0)⟩,
    ⟨⟨100, 560, 300, 640⟩, none, some (0, 0, 0)⟩],
   [], [capBlockAt ⟨100, 500, 300, 515⟩]⟩

/-- C7 counterexample page: a drawing spanning y 100-320 with a caption
block lying inside it (y 150-165) that matches no group and no orphan. -/
def c7page : Page :=
  ⟨400, 700, [⟨⟨100, 100, 300, 320⟩, none, some (0, 0, 0)⟩], [],
   [capBlockAt ⟨100, 150, 250, 165⟩]⟩

/-- The invariant carried through the caption loop: members of every group
are in the used set, distinct groups have disjoint members, and every group
rect respects the page-x bounds, the 40 pt top margin and the 5 pt caption
gap. -/
def AssocInv (pw : ℚ) (st : AssocState) : Prop :=
  (∀ g ∈ st.groups, ∀ i ∈ g.members, i ∈ st.used) ∧
  st.groups.Pairwise (fun g1 g2 => ∀ i ∈ g1.members, i ∉ g2.members) ∧
  (∀ g ∈ st.groups, 0 ≤ g.rect.x0 ∧ g.rect.x1 ≤ pw ∧ 40 ≤ g.rect.y0 ∧
    g.rect.y1 ≤ g.capRect.y0 - 5)

theorem merge_absorb_length_le (threshold : ℚ) (gm : Option ℚ) :
    ∀ (current : Rect) (l : List Rect),
      (merge_absorb threshold gm current l).2.1.length ≤ l.length := by
  intro current l
  induction l generalizing current with
  | nil => simp [merge_absorb]
  | cons c rest ih =>
    simp only [merge_absorb]
    split
    · exact Nat.le_succ_of_le (ih _)
    · simpa using ih current

theorem merge_absorb_false (threshold : ℚ) (gm : Option ℚ) :
    ∀ (current : Rect) (l : List Rect),
      (merge_absorb threshold gm current l).2.2 = false →
      merge_absorb threshold gm current l = (current, l, false) ∧
      ∀ c ∈ l, merge_should current c threshold gm = false := by
  intro current l
  induction l generalizing current with
  | nil => simp [merge_absorb]
  | cons c rest ih =>
    by_cases hms : merge_should current c threshold gm = true
    · simp only [merge_absorb, if_pos hms]
      intro h; simp at h
    · simp only [merge_absorb, if_neg hms]
      intro h
      rcases ih current h with ⟨heq, hall⟩
      refine ⟨by simp [heq], ?_⟩
      intro d hd
      rcases List.mem_cons.1 hd with rfl | hd
      · simpa using hms
      · exact hall d hd

theorem merge_absorb_true (threshold : ℚ) (gm : Option ℚ) :
    ∀ (current : Rect) (l : List Rect),
      (merge_absorb threshold gm current l).2.2 = true →
      (merge_absorb threshold gm current l).2.1.length < l.length := by
  intro current l
  induction l generalizing current with
  | nil => simp [merge_absorb]
  | cons c rest ih =>
    simp only [merge_absorb]
    split
    · intro _
      exact Nat.lt_succ_of_le (merge_absorb_length_le _ _ _ _)
    · intro h
      simp only at h
      simpa using ih current h

theorem merge_pass_false (threshold : ℚ) (gm : Option ℚ) :
    ∀ (fuel : ℕ) (l : List Rect), l.length ≤ fuel →
      (merge_pass threshold gm fuel l).2 = false →
      (merge_pass threshold gm fuel l).1 = l ∧
      l.Pairwise (fun a b => merge_should a b threshold gm = false) := by
  intro fuel
  induction fuel with
  | zero =>
    intro l hl
    have : l = [] := List.length_eq_zero.1 (Nat.le_zero.1 hl)
    subst this
    intro _; simp [merge_pass]
  | succ n ih =>
    intro l hl
    match l with
    | [] => intro _; simp [merge_pass]
    | c :: rest =>
      rw [merge_pass]
      simp only [Bool.or_eq_false_iff]
      rintro ⟨h1, h2⟩
      rcases merge_absorb_false threshold gm c rest h1 with ⟨heq, hall⟩
      have hlen : rest.length ≤ n := Nat.le_of_succ_le_succ (by simpa using hl)
      have hrest := ih rest hlen (by simpa [heq] using h2)
      exact ⟨by simp [heq, hrest.1], List.Pairwise.cons hall hrest.2⟩

theorem merge_pass_length_le (threshold : ℚ) (gm : Option ℚ) :
    ∀ (fuel : ℕ) (l : List Rect), l.length ≤ fuel →
      (merge_pass threshold gm fuel l).1.length ≤ l.length := by
  intro fuel
  induction fuel with
  | zero =>
    intro l hl
    have : l = [] := List.length_eq_zero.1 (Nat.le_zero.1 hl)
    subst this
    simp [merge_pass]
  | succ n ih =>
    intro l hl
    match l with
    | [] => simp [merge_pass]
    | c :: rest =>
      rw [merge_pass]
      simp only [List.length_cons]
      have habs := merge_absorb_length_le threshold gm c rest
      have hlen : (merge_absorb threshold gm c rest).2.1.length ≤ n :=
        le_trans habs (Nat.le_of_succ_le_succ (by simpa using hl))
      have hrec := ih (merge_absorb threshold gm c rest).2.1 hlen
      exact Nat.succ_le_succ (le_trans hrec habs)

theorem merge_pass_lt (threshold : ℚ) (gm : Option ℚ) :
    ∀ (fuel : ℕ) (l : List Rect), l.length ≤ fuel →
      (merge_pass threshold gm fuel l).2 = true →
      (merge_pass threshold gm fuel l).1.length < l.length := by
  intro fuel
  induction fuel with
  | zero =>
    intro l hl
    have : l = [] := List.length_eq_zero.1 (Nat.le_zero.1 hl)
    subst this
    simp [merge_pass]
  | succ n ih =>
    intro l hl
    match l with
    | [] => simp [merge_pass]
    | c :: rest =>
      rw [merge_pass]
      simp only [List.length_cons, Bool.or_eq_true]
      have habs := merge_absorb_length_le threshold gm c rest
      have hlen : (merge_absorb threshold gm c rest).2.1.length ≤ n :=
        le_trans habs (Nat.le_of_succ_le_succ (by simpa using hl))
      have hple := merge_pass_length_le threshold gm n _ hlen
      rintro (h | h)
      · have := merge_absorb_true threshold gm c rest h
        exact Nat.succ_lt_succ (lt_of_le_of_lt hple this)
      · have := ih (merge_absorb threshold gm c rest).2.1 hlen h
        exact Nat.succ_lt_succ (lt_of_lt_of_le this habs)

theorem merge_loop_fix (threshold : ℚ) (gm : Option ℚ) :
    ∀ (fuel : ℕ) (l : List Rect), l.length ≤ fuel →
      merge_pass threshold gm (merge_loop threshold gm fuel l).length
          (merge_loop threshold gm fuel l) =
        (merge_loop threshold gm fuel l, false) := by
  intro fuel
  induction fuel with
  | zero =>
    intro l hl
    have : l = [] := List.length_eq_zero.1 (Nat.le_zero.1 hl)
    subst this
    simp [merge_loop, merge_pass]
  | succ n ih =>
    intro l hl
    rw [merge_loop]
    by_cases hch : (merge_pass threshold gm l.length l).2 = true
    · rw [if_pos hch]
      exact ih _ (Nat.le_of_lt_succ
        (lt_of_lt_of_le (merge_pass_lt threshold gm l.length l le_rfl hch) hl))
    · have hch' : (merge_pass threshold gm l.length l).2 = false := by
        simpa using hch
      rw [if_neg (by simp [hch'])]
      have heq := (merge_pass_false threshold gm l.length l le_rfl hch').1
      rw [heq]
      rw [Prod.ext_iff]
      exact ⟨heq, hch'⟩

/-- The output of `merge_rects` is a fixpoint: one more pass changes nothing. -/
theorem merge_rects_fix (rects : List Rect) (threshold : ℚ) (gm : Option ℚ) :
    merge_pass threshold gm (merge_rects rects threshold gm).length
        (merge_rects rects threshold gm) =
      (merge_rects rects threshold gm, false) := by
  unfold merge_rects
  split
  · simp [merge_pass]
  · exact merge_loop_fix threshold gm rects.length rects le_rfl

/-- Claim C5: `merge_rects` is idempotent — re-running it on its own output,
with the same threshold and gutter midline, returns the same cluster list
unchanged. -/
theorem merge_rects_idempotent (l : List Rect) (threshold : ℚ) (gm : Option ℚ) :
    merge_rects (merge_rects l threshold gm) threshold gm =
      merge_rects l threshold gm := by
  have hfix := merge_rects_fix l threshold gm
  generalize merge_rects l threshold gm = out at hfix ⊢
  cases out with
  | nil => simp [merge_rects]
  | cons c rest =>
    unfold merge_rects
    rw [if_neg (by simp)]
    have hl : (c :: rest).length = rest.length + 1 := rfl
    rw [hl, merge_loop, hfix]
    simp

/-! Geometry lemmas used for the order-independence analysis of
`merge_rects` without a gutter midline. -/

theorem Rect.join_comm (a b : Rect) : a.join b = b.join a := by
  simp [Rect.join, min_comm, max_comm]

theorem Rect.join_assoc (a b c : Rect) :
    (a.join b).join c = a.join (b.join c) := by
  simp [Rect.join, min_assoc, max_assoc]

theorem Rect.join_right_comm (a b c : Rect) :
    (a.join b).join c = (a.join c).join b := by
  rw [Rect.join_assoc, Rect.join_comm b c, ← Rect.join_assoc]

theorem intersects_true (r s : Rect) :
    r.intersects s = true ↔
      r.x0 < r.x1 ∧ r.y0 < r.y1 ∧ s.x0 < s.x1 ∧ s.y0 < s.y1 ∧
      max r.x0 s.x0 < min r.x1 s.x1 ∧ max r.y0 s.y0 < min r.y1 s.y1 := by
  simp only [Rect.intersects, Rect.is_empty, Rect.inter, Bool.and_eq_true,
    Bool.not_eq_true', Bool.or_eq_false_iff, decide_eq_false_iff_not, not_le,
    max_lt_iff, lt_min_iff]
  constructor
  · rintro ⟨⟨⟨h1, h2⟩, h3, h4⟩, h5⟩
    tauto
  · intro h
    tauto

theorem intersects_un_left {x z : Rect} (y : Rect)
    (h : x.intersects z = true) : (x.join y).intersects z = true := by
  rw [intersects_true] at h ⊢
  simp only [Rect.join, max_lt_iff, lt_min_iff] at h ⊢
  obtain ⟨h1, h2, h3, h4, ⟨⟨h5, h6⟩, h7, h8⟩, ⟨h9, h10⟩, h11, h12⟩ := h
  have a1 : x.x0 ⊓ y.x0 ≤ x.x0 := min_le_left _ _
  have a2 : x.y0 ⊓ y.y0 ≤ x.y0 := min_le_left _ _
  have a3 : x.x1 ≤ x.x1 ⊔ y.x1 := le_max_left _ _
  have a4 : x.y1 ≤ x.y1 ⊔ y.y1 := le_max_left _ _
  refine ⟨?_, ?_, h3, h4, ⟨⟨?_, ?_⟩, ?_, ?_⟩, ⟨⟨?_, ?_⟩, ?_, ?_⟩⟩ <;> linarith

theorem intersects_un_right {x z : Rect} (y : Rect)
    (h : z.intersects x = true) : z.intersects (x.join y) = true := by
  rw [intersects_true] at h ⊢
  simp only [Rect.join, max_lt_iff, lt_min_iff] at h ⊢
  obtain ⟨h1, h2, h3, h4, ⟨⟨h5, h6⟩, h7, h8⟩, ⟨h9, h10⟩, h11, h12⟩ := h
  have a1 : x.x0 ⊓ y.x0 ≤ x.x0 := min_le_left _ _
  have a2 : x.y0 ⊓ y.y0 ≤ x.y0 := min_le_left _ _
  have a3 : x.x1 ≤ x.x1 ⊔ y.x1 := le_max_left _ _
  have a4 : x.y1 ≤ x.y1 ⊔ y.y1 := le_max_left _ _
  refine ⟨h1, h2, ?_, ?_, ⟨⟨?_, ?_⟩, ?_, ?_⟩, ⟨⟨?_, ?_⟩, ?_, ?_⟩⟩ <;> linarith

theorem v_dist_un_left_le {x z : Rect} (y : Rect)
    (hx : x.valid) (hz : z.valid) : v_dist (x.join y) z ≤ v_dist x z := by
  obtain ⟨-, hx2⟩ := hx
  obtain ⟨-, hz2⟩ := hz
  simp only [v_dist, Rect.join]
  have h1 : x.y1 ≤ max x.y1 y.y1 := le_max_left _ _
  have h2 : min x.y0 y.y0 ≤ x.y0 := min_le_left _ _
  split_ifs <;> linarith

theorem h_dist_un_left_le {x z : Rect} (y : Rect)
    (hx : x.valid) (hz : z.valid) : h_dist (x.join y) z ≤ h_dist x z := by
  obtain ⟨hx1, -⟩ := hx
  obtain ⟨hz1, -⟩ := hz
  simp only [h_dist, Rect.join]
  have h1 : x.x1 ≤ max x.x1 y.x1 := le_max_left _ _
  have h2 : min x.x0 y.x0 ≤ x.x0 := min_le_left _ _
  split_ifs <;> linarith

theorem v_dist_un_right_le {x z : Rect} (y : Rect)
    (hx : x.valid) (hz : z.valid) : v_dist z (x.join y) ≤ v_dist z x := by
  obtain ⟨-, hx2⟩ := hx
  obtain ⟨-, hz2⟩ := hz
  simp only [v_dist, Rect.join]
  have h1 : x.y1 ≤ max x.y1 y.y1 := le_max_left _ _
  have h2 : min x.y0 y.y0 ≤ x.y0 := min_le_left _ _
  split_ifs <;> linarith

theorem h_dist_un_right_le {x z : Rect} (y : Rect)
    (hx : x.valid) (hz : z.valid) : h_dist z (x.join y) ≤ h_dist z x := by
  obtain ⟨hx1, -⟩ := hx
  obtain ⟨hz1, -⟩ := hz
  simp only [h_dist, Rect.join]
  have h1 : x.x1 ≤ max x.x1 y.x1 := le_max_left _ _
  have h2 : min x.x0 y.x0 ≤ x.x0 := min_le_left _ _
  split_ifs <;> linarith

theorem close_un_left {x z : Rect} (y : Rect) {t : ℚ}
    (hx : x.valid) (hz : z.valid)
    (h : rects_are_close x z t = true) :
    rects_are_close (x.join y) z t = true := by
  unfold rects_are_close at h ⊢
  by_cases hi : x.intersects z = true
  · rw [if_pos (intersects_un_left y hi)]
  · rw [if_neg hi] at h
    simp only [Bool.and_eq_true, decide_eq_true_eq] at h
    by_cases hu : (x.join y).intersects z = true
    · rw [if_pos hu]
    · rw [if_neg hu]
      simp only [Bool.and_eq_true, decide_eq_true_eq]
      exact ⟨lt_of_le_of_lt (v_dist_un_left_le y hx hz) h.1,
        lt_of_le_of_lt (h_dist_un_left_le y hx hz) h.2⟩

theorem close_un_right {x z : Rect} (y : Rect) {t : ℚ}
    (hx : x.valid) (hz : z.valid)
    (h : rects_are_close z x t = true) :
    rects_are_close z (x.join y) t = true := by
  unfold rects_are_close at h ⊢
  by_cases hi : z.intersects x = true
  · rw [if_pos (intersects_un_right y hi)]
  · rw [if_neg hi] at h
    simp only [Bool.and_eq_true, decide_eq_true_eq] at h
    by_cases hu : z.intersects (x.join y) = true
    · rw [if_pos hu]
    · rw [if_neg hu]
      simp only [Bool.and_eq_true, decide_eq_true_eq]
      exact ⟨lt_of_le_of_lt (v_dist_un_right_le y hx hz) h.1,
        lt_of_le_of_lt (h_dist_un_right_le y hx hz) h.2⟩

theorem Rect.join_valid {a b : Rect} (ha : a.valid) (hb : b.valid) :
    (a.join b).valid := by
  obtain ⟨h1, h2⟩ := ha
  obtain ⟨h3, h4⟩ := hb
  constructor <;> simp only [Rect.join, lt_max_iff, min_lt_iff] <;> tauto

theorem Rect.valid_not_empty {r : Rect} (h : r.valid) : r.is_empty = false := by
  obtain ⟨h1, h2⟩ := h
  simp only [Rect.is_empty, Bool.or_eq_false_iff, decide_eq_false_iff_not,
    not_le]
  exact ⟨h1, h2⟩

/-- On non-degenerate rectangles `Rect.un` is the coordinatewise join. -/
theorem un_eq_join {r s : Rect} (hr : r.valid) (hs : s.valid) :
    r.un s = r.join s := by
  unfold Rect.un
  rw [Rect.valid_not_empty hr, Rect.valid_not_empty hs]
  rfl

theorem Rect.un_valid {a b : Rect} (ha : a.valid) (hb : b.valid) :
    (a.un b).valid := by
  rw [un_eq_join ha hb]
  exact Rect.join_valid ha hb

theorem intersects_symm (x y : Rect) : x.intersects y = y.intersects x := by
  by_cases h : x.intersects y = true
  · rw [h]
    symm
    rw [intersects_true] at h ⊢
    obtain ⟨h1, h2, h3, h4, h5, h6⟩ := h
    exact ⟨h3, h4, h1, h2, by rwa [max_comm, min_comm],
      by rwa [max_comm, min_comm]⟩
  · have h' : x.intersects y = false := by simpa using h
    rw [h']
    symm
    rw [Bool.eq_false_iff]
    intro hc
    apply h
    rw [intersects_true] at hc ⊢
    obtain ⟨h1, h2, h3, h4, h5, h6⟩ := hc
    exact ⟨h3, h4, h1, h2, by rwa [max_comm, min_comm],
      by rwa [max_comm, min_comm]⟩

theorem v_dist_symm {x y : Rect} (hx : x.valid) (hy : y.valid) :
    v_dist x y = v_dist y x := by
  obtain ⟨-, h2⟩ := hx
  obtain ⟨-, h4⟩ := hy
  simp only [v_dist]
  split_ifs <;> linarith

theorem h_dist_symm {x y : Rect} (hx : x.valid) (hy : y.valid) :
    h_dist x y = h_dist y x := by
  obtain ⟨h1, -⟩ := hx
  obtain ⟨h3, -⟩ := hy
  simp only [h_dist]
  split_ifs <;> linarith

theorem close_symm {x y : Rect} (hx : x.valid) (hy : y.valid) (t : ℚ) :
    rects_are_close x y t = rects_are_close y x t := by
  unfold rects_are_close
  rw [intersects_symm, v_dist_symm hx hy, h_dist_symm hx hy]

theorem merge_should_none (a b : Rect) (t : ℚ) :
    merge_should a b t none = rects_are_close a b t := by
  unfold merge_should
  split <;> simp_all

theorem Rect.join_left_comm (a b c : Rect) :
    a.join (b.join c) = b.join (a.join c) := by
  rw [← Rect.join_assoc, Rect.join_comm a b, Rect.join_assoc]

theorem MergeStep.consm {t : ℚ} {s s' : Multiset Rect} (a : Rect)
    (h : MergeStep t s s') : MergeStep t (a ::ₘ s) (a ::ₘ s') := by
  obtain ⟨x, y, r, hx, hy, hc, rfl, rfl⟩ := h
  refine ⟨x, y, a ::ₘ r, hx, hy, hc, ?_, ?_⟩
  · rw [Multiset.cons_swap a x, Multiset.cons_swap a y]
  · rw [Multiset.cons_swap a]

/-- Joining two merge steps that consume a common rectangle `p`. -/
theorem mergeStep_diamond_share {t : ℚ} (p q w : Rect) (v : Multiset Rect)
    (hp : p.valid) (hq : q.valid) (hw : w.valid)
    (hpq : rects_are_close p q t = true) (hpw : rects_are_close p w t = true) :
    ∃ d, Relation.ReflGen (MergeStep t) (p.join q ::ₘ w ::ₘ v) d ∧
      Relation.ReflTransGen (MergeStep t) (p.join w ::ₘ q ::ₘ v) d := by
  refine ⟨(p.join q).join w ::ₘ v, Relation.ReflGen.single ?_,
    Relation.ReflTransGen.single ?_⟩
  · exact ⟨p.join q, w, v, Rect.join_valid hp hq, hw,
      close_un_left q hp hw hpw, rfl, rfl⟩
  · exact ⟨p.join w, q, v, Rect.join_valid hp hw, hq,
      close_un_left w hp hq hpq, rfl, by rw [Rect.join_right_comm]⟩

theorem mergeStep_diamond (t : ℚ) (a b c : Multiset Rect)
    (hab : MergeStep t a b) (hac : MergeStep t a c) :
    ∃ d, Relation.ReflGen (MergeStep t) b d ∧
      Relation.ReflTransGen (MergeStep t) c d := by
  obtain ⟨x, y, r, hx, hy, hxy, rfl, rfl⟩ := hab
  obtain ⟨x', y', r', hx', hy', hxy', heq, rfl⟩ := hac
  rcases Multiset.cons_eq_cons.1 heq with ⟨h1, h2⟩ | ⟨hne, u, hu1, hu2⟩
  · subst h1
    rcases Multiset.cons_eq_cons.1 h2 with ⟨h3, h4⟩ | ⟨hne2, v, hv1, hv2⟩
    · subst h3; subst h4
      exact ⟨x.join y ::ₘ r, Relation.ReflGen.refl,
        Relation.ReflTransGen.refl⟩
    · -- pairs (x, y) and (x, y') share x; r = y' ::ₘ v, r' = y ::ₘ v
      subst hv1; subst hv2
      exact mergeStep_diamond_share x y y' v hx hy hy' hxy hxy'
  · rcases Multiset.cons_eq_cons.1 hu1 with ⟨h3, h4⟩ | ⟨hne2, v, hv1, hv2⟩
    · subst h3; subst h4
      rcases Multiset.cons_eq_cons.1 hu2 with ⟨h5, h6⟩ | ⟨hne3, w, hw1, hw2⟩
      · -- the same unordered pair, reversed
        subst h5; subst h6
        refine ⟨y'.join y ::ₘ r', Relation.ReflGen.refl, ?_⟩
        rw [Rect.join_comm y y']
      · -- pairs (x, y) and (y, y') share y; r = y' ::ₘ w, r' = x ::ₘ w
        subst hw1; subst hw2
        rw [Rect.join_comm x y]
        refine mergeStep_diamond_share y x y' w hy hx hy' ?_ hxy'
        rw [close_symm hy hx t]
        exact hxy
    · rcases Multiset.cons_eq_cons.1 hu2 with ⟨h5, h6⟩ | ⟨hne3, w, hw1, hw2⟩
      · -- pairs (x, y) and (x', x) share x; r = x' ::ₘ v, r' = y ::ₘ v
        subst hv1; subst hv2; subst h5; subst h6
        rw [Rect.join_comm x' y']
        refine mergeStep_diamond_share y' y x' v hy' hy hx' hxy ?_
        rw [close_symm hy' hx' t]
        exact hxy'
      · rcases Multiset.cons_eq_cons.1 (hv2.symm.trans hw2) with
          ⟨h7, h8⟩ | ⟨hne4, z, hz1, hz2⟩
        · -- pairs (x, y) and (x', y) share y; r = x' ::ₘ v, r' = x ::ₘ v
          subst h7; subst h8; subst hv1; subst hw1
          rw [Rect.join_comm x y, Rect.join_comm x' y]
          refine mergeStep_diamond_share y x x' v hy hx hx' ?_ ?_
          · rw [close_symm hy hx t]
            exact hxy
          · rw [close_symm hy hx' t]
            exact hxy'
        · -- disjoint pairs; r = x' ::ₘ y' ::ₘ z, r' = x ::ₘ y ::ₘ z
          subst hz1; subst hz2; subst hv1; subst hw1
          refine ⟨x.join y ::ₘ x'.join y' ::ₘ z, Relation.ReflGen.single ?_,
            Relation.ReflTransGen.single ?_⟩
          · refine ⟨x', y', x.join y ::ₘ z, hx', hy', hxy', ?_, ?_⟩
            · rw [Multiset.cons_swap (x.join y) x',
                Multiset.cons_swap (x.join y) y']
            · rw [Multiset.cons_swap]
          · refine ⟨x, y, x'.join y' ::ₘ z, hx, hy, hxy, ?_, rfl⟩
            rw [Multiset.cons_swap (x'.join y') x,
              Multiset.cons_swap (x'.join y') y]

/-- Claim C4 is false on two counts.  With a gutter midline `merge_rects`
is order dependent: the permuted inputs `[A, C, B]` and `[B, C, A]`
(threshold 35, midline 50) produce different cluster sets, because the
middle rectangle `C` fuses with whichever side is scanned first and the
gutter veto then blocks the other side.  And even without a midline it is
order dependent on degenerate (PyMuPDF-empty) rectangles: `|` ignores an
empty operand, so `[D1, D2]` collapses to `[D1]` but `[D2, D1]` to `[D2]`
(threshold 25). -/
theorem c4_counterexample :
    [c4A, c4C, c4B].Perm [c4B, c4C, c4A] ∧
    merge_rects [c4A, c4C, c4B] 35 (some 50) = [⟨0, 0, 60, 10⟩, c4B] ∧
    merge_rects [c4B, c4C, c4A] 35 (some 50) = [⟨40, 0, 100, 10⟩, c4A] ∧
    (⟨0, 0, 60, 10⟩ : Rect) ∈ merge_rects [c4A, c4C, c4B] 35 (some 50) ∧
    (⟨0, 0, 60, 10⟩ : Rect) ∉ merge_rects [c4B, c4C, c4A] 35 (some 50) ∧
    [c4D1, c4D2].Perm [c4D2, c4D1] ∧
    merge_rects [c4D1, c4D2] 25 none = [c4D1] ∧
    merge_rects [c4D2, c4D1] 25 none = [c4D2] ∧
    c4D1 ≠ c4D2 := by
  refine ⟨?_, by decide, by decide, by decide, by decide,
    List.Perm.swap c4D2 c4D1 [], by decide, by decide, by decide⟩
  exact List.Perm.trans (List.Perm.swap c4C c4A [c4B])
    (List.Perm.trans (List.Perm.cons c4C (List.Perm.swap c4B c4A []))
      (List.Perm.swap c4B c4C [c4A]))

theorem merge_absorb_valid (t : ℚ) (gm : Option ℚ) :
    ∀ (l : List Rect) (current : Rect), current.valid → (∀ r ∈ l, r.valid) →
      (merge_absorb t gm current l).1.valid ∧
      ∀ r ∈ (merge_absorb t gm current l).2.1, r.valid := by
  intro l
  induction l with
  | nil => intro current hc _; simpa [merge_absorb] using hc
  | cons c rest ih =>
    intro current hc hall
    by_cases hms : merge_should current c t gm = true
    · simp only [merge_absorb, if_pos hms]
      exact ih (current.un c) (Rect.un_valid hc (hall c (by simp)))
        (fun r hr => hall r (List.mem_cons_of_mem c hr))
    · simp only [merge_absorb, if_neg hms]
      have h := ih current hc (fun r hr => hall r (List.mem_cons_of_mem c hr))
      refine ⟨h.1, ?_⟩
      intro r hr
      rcases List.mem_cons.1 hr with rfl | hr
      · exact hall r (by simp)
      · exact h.2 r hr

theorem merge_pass_valid (t : ℚ) (gm : Option ℚ) :
    ∀ (fuel : ℕ) (l : List Rect), (∀ r ∈ l, r.valid) →
      ∀ r ∈ (merge_pass t gm fuel l).1, r.valid := by
  intro fuel
  induction fuel with
  | zero =>
    intro l hall r hr
    match l with
    | [] => simp [merge_pass] at hr
    | c :: rest => exact hall r (by simpa [merge_pass] using hr)
  | succ n ih =>
    intro l hall r hr
    match l with
    | [] => simp [merge_pass] at hr
    | c :: rest =>
      rw [merge_pass] at hr
      simp only [List.mem_cons] at hr
      have habs := merge_absorb_valid t gm rest c (hall c (by simp))
        (fun s hs => hall s (List.mem_cons_of_mem c hs))
      rcases hr with rfl | hr
      · exact habs.1
      · exact ih (merge_absorb t gm c rest).2.1 habs.2 r hr

theorem merge_rects_valid (l : List Rect) (t : ℚ) (gm : Option ℚ)
    (hv : ∀ r ∈ l, r.valid) : ∀ r ∈ merge_rects l t gm, r.valid := by
  unfold merge_rects
  split
  · simp
  · generalize l.length = fuel
    clear * - hv
    induction fuel generalizing l with
    | zero => simpa [merge_loop] using hv
    | succ n ih =>
      rw [merge_loop]
      split
      · exact ih (merge_pass t gm l.length l).1 (merge_pass_valid t gm l.length l hv)
      · exact merge_pass_valid t gm l.length l hv

theorem rtg_consm {t : ℚ} (a : Rect) {s s' : Multiset Rect}
    (h : Relation.ReflTransGen (MergeStep t) s s') :
    Relation.ReflTransGen (MergeStep t) (a ::ₘ s) (a ::ₘ s') :=
  Relation.ReflTransGen.lift (fun m => a ::ₘ m)
    (fun _ _ hs => MergeStep.consm a hs) h

theorem merge_absorb_rtg (t : ℚ) :
    ∀ (l : List Rect) (current : Rect), current.valid → (∀ r ∈ l, r.valid) →
      Relation.ReflTransGen (MergeStep t) (current ::ₘ ↑l)
        ((merge_absorb t none current l).1 ::ₘ
          ↑(merge_absorb t none current l).2.1) := by
  intro l
  induction l with
  | nil =>
    intro current _ _
    simp only [merge_absorb]
    exact Relation.ReflTransGen.refl
  | cons c rest ih =>
    intro current hc hall
    by_cases hms : merge_should current c t none = true
    · simp only [merge_absorb, if_pos hms]
      have hstep : MergeStep t (current ::ₘ ↑(c :: rest))
          (current.un c ::ₘ ↑rest) := by
        rw [un_eq_join hc (hall c (by simp))]
        refine ⟨current, c, ↑rest, hc, hall c (by simp), ?_, by simp, rfl⟩
        rwa [merge_should_none] at hms
      exact Relation.ReflTransGen.head hstep
        (ih (current.un c) (Rect.un_valid hc (hall c (by simp)))
          (fun r hr => hall r (List.mem_cons_of_mem c hr)))
    · simp only [merge_absorb, if_neg hms]
      have h := ih current hc (fun r hr => hall r (List.mem_cons_of_mem c hr))
      have hgoal := rtg_consm c h
      rw [Multiset.cons_swap c current, Multiset.cons_swap c
        (merge_absorb t none current rest).1] at hgoal
      simpa using hgoal

theorem merge_pass_rtg (t : ℚ) :
    ∀ (fuel : ℕ) (l : List Rect), l.length ≤ fuel → (∀ r ∈ l, r.valid) →
      Relation.ReflTransGen (MergeStep t) (↑l : Multiset Rect)
        (↑(merge_pass t none fuel l).1) := by
  intro fuel
  induction fuel with
  | zero =>
    intro l hl _
    have : l = [] := List.length_eq_zero.1 (Nat.le_zero.1 hl)
    subst this
    simp only [merge_pass]
    exact Relation.ReflTransGen.refl
  | succ n ih =>
    intro l hl hall
    match l with
    | [] =>
      simp only [merge_pass]
      exact Relation.ReflTransGen.refl
    | c :: rest =>
      rw [merge_pass]
      have habs := merge_absorb_rtg t rest c (hall c (by simp))
        (fun r hr => hall r (List.mem_cons_of_mem c hr))
      have hvabs := merge_absorb_valid t none rest c (hall c (by simp))
        (fun r hr => hall r (List.mem_cons_of_mem c hr))
      have hlen : (merge_absorb t none c rest).2.1.length ≤ n :=
        le_trans (merge_absorb_length_le t none c rest)
          (Nat.le_of_succ_le_succ (by simpa using hl))
      have hrec := ih (merge_absorb t none c rest).2.1 hlen hvabs.2
      refine Relation.ReflTransGen.trans ?_
        (rtg_consm (merge_absorb t none c rest).1 hrec)
      simpa using habs

theorem merge_loop_rtg (t : ℚ) :
    ∀ (fuel : ℕ) (l : List Rect), l.length ≤ fuel → (∀ r ∈ l, r.valid) →
      Relation.ReflTransGen (MergeStep t) (↑l : Multiset Rect)
        (↑(merge_loop t none fuel l)) := by
  intro fuel
  induction fuel with
  | zero =>
    intro l hl _
    have : l = [] := List.length_eq_zero.1 (Nat.le_zero.1 hl)
    subst this
    simp only [merge_loop]
    exact Relation.ReflTransGen.refl
  | succ n ih =>
    intro l hl hall
    rw [merge_loop]
    split
    · refine Relation.ReflTransGen.trans
        (merge_pass_rtg t l.length l le_rfl hall) ?_
      exact ih (merge_pass t none l.length l).1
        (Nat.le_of_lt_succ (lt_of_lt_of_le
          (merge_pass_lt t none l.length l le_rfl (by assumption)) hl))
        (merge_pass_valid t none l.length l hall)
    · exact merge_pass_rtg t l.length l le_rfl hall

theorem merge_rects_rtg (t : ℚ) (l : List Rect) (hv : ∀ r ∈ l, r.valid) :
    Relation.ReflTransGen (MergeStep t) (↑l : Multiset Rect)
      (↑(merge_rects l t none)) := by
  unfold merge_rects
  split
  · next h =>
    rw [List.isEmpty_iff.1 h]
  · exact merge_loop_rtg t l.length l le_rfl hv

theorem merge_rects_pairwise (l : List Rect) (t : ℚ) (gm : Option ℚ) :
    (merge_rects l t gm).Pairwise
      (fun a b => merge_should a b t gm = false) := by
  have hfix := merge_rects_fix l t gm
  have h2 : (merge_pass t gm (merge_rects l t gm).length
      (merge_rects l t gm)).2 = false := by rw [hfix]
  exact (merge_pass_false t gm (merge_rects l t gm).length
    (merge_rects l t gm) le_rfl h2).2

theorem merge_rects_no_step (t : ℚ) (l : List Rect)
    (hv : ∀ r ∈ merge_rects l t none, r.valid) :
    ∀ s', ¬ MergeStep t (↑(merge_rects l t none) : Multiset Rect) s' := by
  rintro s' ⟨x, y, r, hx, hy, hclose, heq, -⟩
  have hperm : List.Perm (merge_rects l t none) (x :: y :: r.toList) := by
    rw [← Multiset.coe_eq_coe, heq]
    simp only [← Multiset.cons_coe, Multiset.coe_toList]
  have hpw := merge_rects_pairwise l t none
  have hpw2 : (merge_rects l t none).Pairwise
      (fun a b => merge_should a b t none = false ∧ a.valid ∧ b.valid) :=
    List.Pairwise.imp_of_mem (fun ha hb hr => ⟨hr, hv _ ha, hv _ hb⟩) hpw
  have hsym : ∀ {a b : Rect},
      (merge_should a b t none = false ∧ a.valid ∧ b.valid) →
      (merge_should b a t none = false ∧ b.valid ∧ a.valid) := by
    rintro a b ⟨h, ha, hb⟩
    refine ⟨?_, hb, ha⟩
    rw [merge_should_none] at h ⊢
    rw [close_symm hb ha]
    exact h
  have hpw3 := (List.Perm.pairwise_iff hsym hperm).1 hpw2
  have hxy := (List.pairwise_cons.1 hpw3).1 y (by simp)
  rw [merge_should_none] at hxy
  rw [hxy.1] at hclose
  exact Bool.false_ne_true hclose

theorem rtg_eq_of_normal {t : ℚ} {N d : Multiset Rect}
    (hN : ∀ s', ¬ MergeStep t N s')
    (h : Relation.ReflTransGen (MergeStep t) N d) : N = d := by
  rcases Relation.ReflTransGen.cases_head h with rfl | ⟨c, hc, -⟩
  · rfl
  · exact absurd hc (hN c)

/-- Claim C4 amended: for lists of non-degenerate rectangles
(`x0 < x1`, `y0 < y1`, i.e. non-empty in PyMuPDF's sense — guaranteed by
the size filters feeding the clustering) and no gutter midline,
`merge_rects` is permutation independent: any permutation of the input
yields the same multiset (hence the same set) of clusters.  With a gutter
midline the claim is false, and so is it for degenerate rectangles, where
`|` ignores empty operands and the proximity test is asymmetric
(`c4_counterexample`); hence non-degeneracy is required. -/
theorem merge_rects_perm_invariant (t : ℚ) (l1 l2 : List Rect)
    (hv : ∀ r ∈ l1, r.valid) (hperm : l1.Perm l2) :
    (↑(merge_rects l1 t none) : Multiset Rect) = ↑(merge_rects l2 t none) := by
  have hv2 : ∀ r ∈ l2, r.valid := fun r hr => hv r (hperm.mem_iff.2 hr)
  have rtg1 := merge_rects_rtg t l1 hv
  have rtg2 := merge_rects_rtg t l2 hv2
  have hcoe : (↑l1 : Multiset Rect) = ↑l2 := Multiset.coe_eq_coe.2 hperm
  rw [← hcoe] at rtg2
  obtain ⟨d, hd1, hd2⟩ := Relation.church_rosser
    (fun a b c hab hac => mergeStep_diamond t a b c hab hac) rtg1 rtg2
  have e1 := rtg_eq_of_normal
    (merge_rects_no_step t l1 (merge_rects_valid l1 t none hv)) hd1
  have e2 := rtg_eq_of_normal
    (merge_rects_no_step t l2 (merge_rects_valid l2 t none hv2)) hd2
  rw [e1, e2]

/-- Witness for `merge_rects_perm_invariant` at a concrete permuted pair. -/
theorem merge_rects_perm_invariant_witness :
    (↑(merge_rects [⟨0, 0, 10, 10⟩, ⟨100, 0, 110, 10⟩] 15 none) : Multiset Rect) =
      ↑(merge_rects [⟨100, 0, 110, 10⟩, ⟨0, 0, 10, 10⟩] 15 none) :=
  merge_rects_perm_invariant 15 _ _
    (by
      intro r hr
      rcases List.mem_cons.1 hr with rfl | hr2
      · exact ⟨by decide, by decide⟩
      · rcases List.mem_cons.1 hr2 with rfl | hr3
        · exact ⟨by decide, by decide⟩
        · simp at hr3)
    (List.Perm.swap _ _ [])

theorem has_subfigure_labels_go_spec (rect : Rect) (threshold : ℚ) :
    ∀ (l : List Rect) (n : ℕ), n < 2 →
      (has_subfigure_labels_go rect threshold l n = true ↔
        2 ≤ n + l.countP (fun lr => rects_are_close rect lr threshold)) := by
  intro l
  induction l with
  | nil =>
    intro n hn
    simp only [has_subfigure_labels_go, List.countP_nil, Nat.add_zero,
      Bool.false_eq_true, false_iff]
    omega
  | cons lr rest ih =>
    intro n hn
    by_cases hc : rects_are_close rect lr threshold = true
    · rw [List.countP_cons]
      simp only [hc, if_true]
      by_cases h2 : 2 ≤ n + 1
      · have hgo : has_subfigure_labels_go rect threshold (lr :: rest) n = true := by
          simp only [has_subfigure_labels_go, if_pos hc, if_pos h2]
        rw [hgo]
        simp only [true_iff]
        omega
      · have hgo : has_subfigure_labels_go rect threshold (lr :: rest) n =
            has_subfigure_labels_go rect threshold rest (n + 1) := by
          simp only [has_subfigure_labels_go, if_pos hc, if_neg h2]
        rw [hgo, ih (n + 1) (by omega)]
        omega
    · have hc' : rects_are_close rect lr threshold = false := by simpa using hc
      have hgo : has_subfigure_labels_go rect threshold (lr :: rest) n =
          has_subfigure_labels_go rect threshold rest n := by
        simp only [has_subfigure_labels_go, if_neg hc]
      rw [List.countP_cons]
      rw [hgo, ih n hn]
      simp [hc']

theorem has_subfigure_labels_nearby_spec (rect : Rect) (label_rects : List Rect)
    (threshold : ℚ) :
    has_subfigure_labels_nearby rect label_rects threshold = true ↔
      2 ≤ label_rects.countP (fun lr => rects_are_close rect lr threshold) := by
  unfold has_subfigure_labels_nearby
  rw [has_subfigure_labels_go_spec rect threshold label_rects 0 (by omega)]
  omega

/-- Claim C3 is false as stated: a single label rect within 200 pt of the
union (here it even intersects `u`) does not trigger the relaxed 150 pt
thresholds — `has_subfigure_labels_nearby` demands at least two nearby
labels, so the thresholds stay at 40 pt. -/
theorem c3_counterexample :
    rects_are_close ⟨0, 0, 10, 10⟩ ⟨0, 0, 10, 10⟩ 200 = true ∧
    (⟨0, 0, 10, 10⟩ : Rect) ∈ [(⟨0, 0, 10, 10⟩ : Rect)] ∧
    adaptive_thresholds ⟨0, 0, 10, 10⟩ ⟨0, 20, 10, 30⟩ [⟨0, 0, 10, 10⟩] =
      (40, 40) := by
  refine ⟨by decide, by simp, by decide⟩

/-- Claim C3 amended: during aligned expansion the horizontal and diagonal
thresholds equal 150 pt exactly when at least two label rects are close
(within 200 pt in the `rects_are_close` sense) to the current union `u`, or
at least two are close to the candidate `o`; otherwise both equal 40 pt. -/
theorem adaptive_thresholds_amended (u obj : Rect) (label_rects : List Rect) :
    (adaptive_thresholds u obj label_rects = (150, 150) ↔
      2 ≤ label_rects.countP (fun lr => rects_are_close u lr 200) ∨
      2 ≤ label_rects.countP (fun lr => rects_are_close obj lr 200)) ∧
    (adaptive_thresholds u obj label_rects = (150, 150) ∨
      adaptive_thresholds u obj label_rects = (40, 40)) := by
  unfold adaptive_thresholds
  simp only [Bool.or_eq_true, has_subfigure_labels_nearby_spec]
  by_cases h : 2 ≤ List.countP (fun lr => rects_are_close u lr 200) label_rects ∨
      2 ≤ List.countP (fun lr => rects_are_close obj lr 200) label_rects
  · simp only [if_pos h]
    simp [h]
  · simp only [if_neg h]
    refine ⟨⟨fun hbad => absurd hbad (by decide), fun hcount => absurd hcount h⟩, ?_⟩
    simp

theorem trim_update_mono (y x v : ℕ) (st : TrimState) :
    (trim_update y x v st).xmin ≤ st.xmin ∧
    st.xmax ≤ (trim_update y x v st).xmax ∧
    (trim_update y x v st).ymin ≤ st.ymin ∧
    st.ymax ≤ (trim_update y x v st).ymax ∧
    (st.found = true → (trim_update y x v st).found = true) := by
  unfold trim_update
  split
  · refine ⟨?_, ?_, ?_, ?_, ?_⟩ <;> simp <;> split <;> omega
  · simp

theorem trim_row_go_mono (y : ℕ) :
    ∀ (row : List ℕ) (x0 : ℕ) (st : TrimState),
      (trim_row_go y st x0 row).xmin ≤ st.xmin ∧
      st.xmax ≤ (trim_row_go y st x0 row).xmax ∧
      (trim_row_go y st x0 row).ymin ≤ st.ymin ∧
      st.ymax ≤ (trim_row_go y st x0 row).ymax ∧
      (st.found = true → (trim_row_go y st x0 row).found = true) := by
  intro row
  induction row with
  | nil => intro x0 st; simp [trim_row_go]
  | cons v rest ih =>
    intro x0 st
    have h1 := trim_update_mono y x0 v st
    have h2 := ih (x0 + 1) (trim_update y x0 v st)
    simp only [trim_row_go]
    exact ⟨le_trans h2.1 h1.1, le_trans h1.2.1 h2.2.1,
      le_trans h2.2.2.1 h1.2.2.1, le_trans h1.2.2.2.1 h2.2.2.2.1,
      fun hf => h2.2.2.2.2 (h1.2.2.2.2 hf)⟩

theorem trim_rows_mono (pix : GrayPixmap) :
    ∀ (ys : List ℕ) (st : TrimState),
      (trim_rows pix st ys).xmin ≤ st.xmin ∧
      st.xmax ≤ (trim_rows pix st ys).xmax ∧
      (trim_rows pix st ys).ymin ≤ st.ymin ∧
      st.ymax ≤ (trim_rows pix st ys).ymax ∧
      (st.found = true → (trim_rows pix st ys).found = true) := by
  intro ys
  induction ys with
  | nil => intro st; simp [trim_rows]
  | cons y rest ih =>
    intro st
    have h1 := trim_row_go_mono y (pixRow pix y) 0 st
    have h2 := ih (trim_row_go y st 0 (pixRow pix y))
    simp only [trim_rows]
    exact ⟨le_trans h2.1 h1.1, le_trans h1.2.1 h2.2.1,
      le_trans h2.2.2.1 h1.2.2.1, le_trans h1.2.2.2.1 h2.2.2.2.1,
      fun hf => h2.2.2.2.2 (h1.2.2.2.2 hf)⟩

theorem trim_row_go_bound (y : ℕ) :
    ∀ (row : List ℕ) (x0 : ℕ) (st : TrimState) (i : ℕ) (hi : i < row.length),
      row.getD i 0 < 250 →
      (trim_row_go y st x0 row).xmin ≤ x0 + i ∧
      x0 + i ≤ (trim_row_go y st x0 row).xmax ∧
      (trim_row_go y st x0 row).ymin ≤ y ∧
      y ≤ (trim_row_go y st x0 row).ymax ∧
      (trim_row_go y st x0 row).found = true := by
  intro row
  induction row with
  | nil => intro x0 st i hi; simp at hi
  | cons v rest ih =>
    intro x0 st i hi hv
    match i with
    | 0 =>
      simp only [List.getD_cons_zero] at hv
      have hst' : trim_update y x0 v st =
          { found := true,
            xmin := if x0 < st.xmin then x0 else st.xmin,
            xmax := if st.xmax < x0 then x0 else st.xmax,
            ymin := if y < st.ymin then y else st.ymin,
            ymax := if st.ymax < y then y else st.ymax } := by
        unfold trim_update
        rw [if_pos hv]
      have hmono := trim_row_go_mono y rest (x0 + 1) (trim_update y x0 v st)
      simp only [trim_row_go]
      refine ⟨?_, ?_, ?_, ?_, ?_⟩
      · refine le_trans hmono.1 ?_
        rw [hst']
        simp only [Nat.add_zero]
        split <;> omega
      · refine le_trans ?_ hmono.2.1
        rw [hst']
        simp only [Nat.add_zero]
        split <;> omega
      · refine le_trans hmono.2.2.1 ?_
        rw [hst']
        simp only
        split <;> omega
      · refine le_trans ?_ hmono.2.2.2.1
        rw [hst']
        simp only
        split <;> omega
      · exact hmono.2.2.2.2 (by rw [hst'])
    | i + 1 =>
      simp only [List.getD_cons_succ] at hv
      have := ih (x0 + 1) (trim_update y x0 v st) i
        (by simpa using Nat.lt_of_succ_lt_succ hi) hv
      simp only [trim_row_go]
      refine ⟨?_, ?_, this.2.2.1, this.2.2.2.1, this.2.2.2.2⟩
      · have := this.1
        omega
      · have := this.2.1
        omega

theorem trim_rows_bound (pix : GrayPixmap) :
    ∀ (ys : List ℕ) (st : TrimState) (y : ℕ), y ∈ ys →
      ∀ (i : ℕ), i < (pixRow pix y).length → (pixRow pix y).getD i 0 < 250 →
      (trim_rows pix st ys).xmin ≤ i ∧
      i ≤ (trim_rows pix st ys).xmax ∧
      (trim_rows pix st ys).ymin ≤ y ∧
      y ≤ (trim_rows pix st ys).ymax ∧
      (trim_rows pix st ys).found = true := by
  intro ys
  induction ys with
  | nil => intro st y hy; simp at hy
  | cons y0 rest ih =>
    intro st y hy i hi hv
    rcases List.mem_cons.1 hy with rfl | hy
    · have hrow := trim_row_go_bound y (pixRow pix y) 0 st i hi hv
      have hmono := trim_rows_mono pix rest (trim_row_go y st 0 (pixRow pix y))
      simp only [trim_rows]
      simp only [Nat.zero_add] at hrow
      exact ⟨le_trans hmono.1 hrow.1, le_trans hrow.2.1 hmono.2.1,
        le_trans hmono.2.2.1 hrow.2.2.1,
        le_trans hrow.2.2.2.1 hmono.2.2.2.1,
        hmono.2.2.2.2 hrow.2.2.2.2⟩
    · simp only [trim_rows]
      exact ih (trim_row_go y0 st 0 (pixRow pix y0)) y hy i hi hv

theorem trim_row_go_cases (y : ℕ) :
    ∀ (row : List ℕ) (x0 : ℕ) (st : TrimState),
      ((trim_row_go y st x0 row).xmin = st.xmin ∨
        ∃ i, i < row.length ∧ row.getD i 0 < 250 ∧
          (trim_row_go y st x0 row).xmin = x0 + i) ∧
      ((trim_row_go y st x0 row).xmax = st.xmax ∨
        ∃ i, i < row.length ∧ row.getD i 0 < 250 ∧
          (trim_row_go y st x0 row).xmax = x0 + i) ∧
      ((trim_row_go y st x0 row).ymin = st.ymin ∨
        ((∃ i, i < row.length ∧ row.getD i 0 < 250) ∧
          (trim_row_go y st x0 row).ymin = y)) ∧
      ((trim_row_go y st x0 row).ymax = st.ymax ∨
        ((∃ i, i < row.length ∧ row.getD i 0 < 250) ∧
          (trim_row_go y st x0 row).ymax = y)) ∧
      ((trim_row_go y st x0 row).found = st.found ∨
        ∃ i, i < row.length ∧ row.getD i 0 < 250) := by
  intro row
  induction row with
  | nil => intro x0 st; simp [trim_row_go]
  | cons v rest ih =>
    intro x0 st
    have hih := ih (x0 + 1) (trim_update y x0 v st)
    simp only [trim_row_go]
    have hshift : ∀ (P : ℕ → Prop),
        (∃ i, i < rest.length ∧ rest.getD i 0 < 250 ∧ P (x0 + 1 + i)) →
        ∃ i, i < (v :: rest).length ∧ (v :: rest).getD i 0 < 250 ∧ P (x0 + i) := by
      rintro P ⟨i, hi, hv, hp⟩
      exact ⟨i + 1, by simpa using hi, by simpa using hv,
        by rw [show x0 + (i + 1) = x0 + 1 + i by omega]; exact hp⟩
    have hshift2 : (∃ i, i < rest.length ∧ rest.getD i 0 < 250) →
        ∃ i, i < (v :: rest).length ∧ (v :: rest).getD i 0 < 250 := by
      rintro ⟨i, hi, hv⟩
      exact ⟨i + 1, by simpa using hi, by simpa using hv⟩
    by_cases hv : v < 250
    · have hup : trim_update y x0 v st =
          { found := true,
            xmin := if x0 < st.xmin then x0 else st.xmin,
            xmax := if st.xmax < x0 then x0 else st.xmax,
            ymin := if y < st.ymin then y else st.ymin,
            ymax := if st.ymax < y then y else st.ymax } := by
        unfold trim_update
        rw [if_pos hv]
      have hzero : ∃ i, i < (v :: rest).length ∧ (v :: rest).getD i 0 < 250 :=
        ⟨0, by simp, by simpa using hv⟩
      refine ⟨?_, ?_, ?_, ?_, Or.inr hzero⟩
      · rcases hih.1 with h | h
        · rw [h, hup]
          simp only
          split
          · exact Or.inr ⟨0, by simp, by simpa using hv, by simpa using rfl⟩
          · exact Or.inl rfl
        · exact Or.inr (hshift _ h)
      · rcases hih.2.1 with h | h
        · rw [h, hup]
          simp only
          split
          · exact Or.inr ⟨0, by simp, by simpa using hv, by simpa using rfl⟩
          · exact Or.inl rfl
        · exact Or.inr (hshift _ h)
      · rcases hih.2.2.1 with h | h
        · rw [h, hup]
          simp only
          split
          · exact Or.inr ⟨hzero, rfl⟩
          · exact Or.inl rfl
        · exact Or.inr ⟨hzero, h.2⟩
      · rcases hih.2.2.2.1 with h | h
        · rw [h, hup]
          simp only
          split
          · exact Or.inr ⟨hzero, rfl⟩
          · exact Or.inl rfl
        · exact Or.inr ⟨hzero, h.2⟩
    · have hup : trim_update y x0 v st = st := by
        unfold trim_update
        rw [if_neg hv]
      rw [hup] at hih ⊢
      refine ⟨?_, ?_, ?_, ?_, ?_⟩
      · rcases hih.1 with h | h
        · exact Or.inl h
        · exact Or.inr (hshift _ h)
      · rcases hih.2.1 with h | h
        · exact Or.inl h
        · exact Or.inr (hshift _ h)
      · rcases hih.2.2.1 with h | h
        · exact Or.inl h
        · exact Or.inr ⟨hshift2 h.1, h.2⟩
      · rcases hih.2.2.2.1 with h | h
        · exact Or.inl h
        · exact Or.inr ⟨hshift2 h.1, h.2⟩
      · rcases hih.2.2.2.2 with h | h
        · exact Or.inl h
        · exact Or.inr (hshift2 h)

theorem trim_rows_cases (pix : GrayPixmap) :
    ∀ (ys : List ℕ) (st : TrimState),
      ((trim_rows pix st ys).xmin = st.xmin ∨
        ∃ y ∈ ys, ∃ i, i < (pixRow pix y).length ∧
          (pixRow pix y).getD i 0 < 250 ∧ (trim_rows pix st ys).xmin = i) ∧
      ((trim_rows pix st ys).xmax = st.xmax ∨
        ∃ y ∈ ys, ∃ i, i < (pixRow pix y).length ∧
          (pixRow pix y).getD i 0 < 250 ∧ (trim_rows pix st ys).xmax = i) ∧
      ((trim_rows pix st ys).ymin = st.ymin ∨
        ∃ y ∈ ys, (∃ i, i < (pixRow pix y).length ∧
          (pixRow pix y).getD i 0 < 250) ∧ (trim_rows pix st ys).ymin = y) ∧
      ((trim_rows pix st ys).ymax = st.ymax ∨
        ∃ y ∈ ys, (∃ i, i < (pixRow pix y).length ∧
          (pixRow pix y).getD i 0 < 250) ∧ (trim_rows pix st ys).ymax = y) ∧
      ((trim_rows pix st ys).found = st.found ∨
        ∃ y ∈ ys, ∃ i, i < (pixRow pix y).length ∧
          (pixRow pix y).getD i 0 < 250) := by
  intro ys
  induction ys with
  | nil => intro st; simp [trim_rows]
  | cons y0 rest ih =>
    intro st
    have hrow := trim_row_go_cases y0 (pixRow pix y0) 0 st
    have hih := ih (trim_row_go y0 st 0 (pixRow pix y0))
    simp only [trim_rows]
    have hlift : ∀ (q : Prop), (∃ y ∈ rest, q ∧ True) → True := fun _ _ => trivial
    refine ⟨?_, ?_, ?_, ?_, ?_⟩
    · rcases hih.1 with h | h
      · rcases hrow.1 with h2 | h2
        · exact Or.inl (h.trans h2)
        · obtain ⟨i, hi, hv, he⟩ := h2
          exact Or.inr ⟨y0, by simp, i, hi, hv, by rw [h, he]; omega⟩
      · obtain ⟨y, hy, i, hi, hv, he⟩ := h
        exact Or.inr ⟨y, List.mem_cons_of_mem y0 hy, i, hi, hv, he⟩
    · rcases hih.2.1 with h | h
      · rcases hrow.2.1 with h2 | h2
        · exact Or.inl (h.trans h2)
        · obtain ⟨i, hi, hv, he⟩ := h2
          exact Or.inr ⟨y0, by simp, i, hi, hv, by rw [h, he]; omega⟩
      · obtain ⟨y, hy, i, hi, hv, he⟩ := h
        exact Or.inr ⟨y, List.mem_cons_of_mem y0 hy, i, hi, hv, he⟩
    · rcases hih.2.2.1 with h | h
      · rcases hrow.2.2.1 with h2 | h2
        · exact Or.inl (h.trans h2)
        · exact Or.inr ⟨y0, by simp, h2.1, by rw [h, h2.2]⟩
      · obtain ⟨y, hy, hq, he⟩ := h
        exact Or.inr ⟨y, List.mem_cons_of_mem y0 hy, hq, he⟩
    · rcases hih.2.2.2.1 with h | h
      · rcases hrow.2.2.2.1 with h2 | h2
        · exact Or.inl (h.trans h2)
        · exact Or.inr ⟨y0, by simp, h2.1, by rw [h, h2.2]⟩
      · obtain ⟨y, hy, hq, he⟩ := h
        exact Or.inr ⟨y, List.mem_cons_of_mem y0 hy, hq, he⟩
    · rcases hih.2.2.2.2 with h | h
      · rcases hrow.2.2.2.2 with h2 | h2
        · exact Or.inl (h.trans h2)
        · obtain ⟨i, hi, hv⟩ := h2
          exact Or.inr ⟨y0, by simp, i, hi, hv⟩
      · obtain ⟨y, hy, i, hi, hv⟩ := h
        exact Or.inr ⟨y, List.mem_cons_of_mem y0 hy, i, hi, hv⟩

theorem pixRow_length (pix : GrayPixmap)
    (hlen : pix.samples.length = pix.width * pix.height)
    {y : ℕ} (hy : y < pix.height) : (pixRow pix y).length = pix.width := by
  have hmul : y * pix.width + pix.width ≤ pix.width * pix.height := by
    have h1 : (y + 1) * pix.width ≤ pix.height * pix.width :=
      Nat.mul_le_mul_right _ hy
    calc y * pix.width + pix.width = (y + 1) * pix.width := by ring
    _ ≤ pix.height * pix.width := h1
    _ = pix.width * pix.height := Nat.mul_comm _ _
  simp only [pixRow, List.length_take, List.length_drop, hlen]
  omega

theorem pixRow_getD (pix : GrayPixmap)
    (hlen : pix.samples.length = pix.width * pix.height)
    {x y : ℕ} (hx : x < pix.width) (hy : y < pix.height) :
    (pixRow pix y).getD x 0 = pixelAt pix x y := by
  have hrl : (pixRow pix y).length = pix.width := pixRow_length pix hlen hy
  have hx' : x < (pixRow pix y).length := by omega
  have hmul : y * pix.width + pix.width ≤ pix.width * pix.height := by
    have h1 : (y + 1) * pix.width ≤ pix.height * pix.width :=
      Nat.mul_le_mul_right _ hy
    calc y * pix.width + pix.width = (y + 1) * pix.width := by ring
    _ ≤ pix.height * pix.width := h1
    _ = pix.width * pix.height := Nat.mul_comm _ _
  have hidx : y * pix.width + x < pix.samples.length := by omega
  rw [List.getD_eq_getElem _ 0 hx']
  unfold pixelAt
  rw [List.getD_eq_getElem _ 0 hidx]
  unfold pixRow
  rw [List.getElem_take, List.getElem_drop]

/-- Claim C9: `trim_pixmap` returns `None` exactly when no pixel is darker
than 250, and otherwise returns the smallest `IRect` covering every pixel
with gray value < 250: `x0`/`y0` are the minimal qualifying column/row and
`x1`/`y1` the maximal ones plus one (each bound is attained). -/
theorem trim_pixmap_spec (pix : GrayPixmap)
    (hlen : pix.samples.length = pix.width * pix.height) :
    (trim_pixmap pix = none ↔
      ∀ x y, x < pix.width → y < pix.height → 250 ≤ pixelAt pix x y) ∧
    (∀ r, trim_pixmap pix = some r →
      (∀ x y, x < pix.width → y < pix.height → pixelAt pix x y < 250 →
        r.x0 ≤ x ∧ x < r.x1 ∧ r.y0 ≤ y ∧ y < r.y1) ∧
      (∃ y, y < pix.height ∧ pixelAt pix r.x0 y < 250) ∧
      (∃ y, y < pix.height ∧ pixelAt pix (r.x1 - 1) y < 250) ∧
      (∃ x, x < pix.width ∧ pixelAt pix x r.y0 < 250) ∧
      (∃ x, x < pix.width ∧ pixelAt pix x (r.y1 - 1) < 250)) := by
  have hbound : ∀ x y, x < pix.width → y < pix.height → pixelAt pix x y < 250 →
      (trim_rows pix ⟨false, pix.width, pix.height, 0, 0⟩
        (List.range pix.height)).xmin ≤ x ∧
      x ≤ (trim_rows pix ⟨false, pix.width, pix.height, 0, 0⟩
        (List.range pix.height)).xmax ∧
      (trim_rows pix ⟨false, pix.width, pix.height, 0, 0⟩
        (List.range pix.height)).ymin ≤ y ∧
      y ≤ (trim_rows pix ⟨false, pix.width, pix.height, 0, 0⟩
        (List.range pix.height)).ymax ∧
      (trim_rows pix ⟨false, pix.width, pix.height, 0, 0⟩
        (List.range pix.height)).found = true := by
    intro x y hx hy hv
    exact trim_rows_bound pix (List.range pix.height) _ y
      (List.mem_range.2 hy) x (by rw [pixRow_length pix hlen hy]; exact hx)
      (by rw [pixRow_getD pix hlen hx hy]; exact hv)
  have hcases := trim_rows_cases pix (List.range pix.height)
    ⟨false, pix.width, pix.height, 0, 0⟩
  have hqual : ∀ {y i : ℕ}, y ∈ List.range pix.height →
      i < (pixRow pix y).length → (pixRow pix y).getD i 0 < 250 →
      i < pix.width ∧ y < pix.height ∧ pixelAt pix i y < 250 := by
    intro y i hy hi hv
    have hy' := List.mem_range.1 hy
    have hw := pixRow_length pix hlen hy'
    have hi' : i < pix.width := by omega
    exact ⟨hi', hy', by rw [← pixRow_getD pix hlen hi' hy']; exact hv⟩
  constructor
  · constructor
    · intro hnone x y hx hy
      by_contra hlt
      push_neg at hlt
      have := (hbound x y hx hy hlt).2.2.2.2
      unfold trim_pixmap at hnone
      rw [if_pos this] at hnone
      exact Option.some_ne_none _ hnone
    · intro hall
      unfold trim_pixmap
      rcases hcases.2.2.2.2 with hf | hf
      · simp only at hf
        rw [if_neg (by rw [hf]; exact Bool.false_ne_true)]
      · obtain ⟨y, hy, i, hi, hv⟩ := hf
        obtain ⟨hi', hy', hv'⟩ := hqual hy hi hv
        exact absurd hv' (by have := hall i y hi' hy'; omega)
  · intro r hr
    unfold trim_pixmap at hr
    by_cases hf : (trim_rows pix ⟨false, pix.width, pix.height, 0, 0⟩
        (List.range pix.height)).found = true
    · rw [if_pos hf] at hr
      have hrv := Option.some.inj hr
      obtain ⟨y0, hy0, i0, hi0, hv0⟩ : ∃ y ∈ List.range pix.height,
          ∃ i, i < (pixRow pix y).length ∧ (pixRow pix y).getD i 0 < 250 := by
        rcases hcases.2.2.2.2 with h | h
        · simp only at h
          rw [hf] at h
          simp at h
        · exact h
      obtain ⟨hi0', hy0', hv0'⟩ := hqual hy0 hi0 hv0
      have hbd0 := hbound i0 y0 hi0' hy0' hv0'
      refine ⟨?_, ?_, ?_, ?_, ?_⟩
      · intro x y hx hy hv
        have h := hbound x y hx hy hv
        rw [← hrv]
        simp only
        omega
      · rcases hcases.1 with h | h
        · exfalso
          simp only at h
          omega
        · obtain ⟨y, hy, i, hi, hv, he⟩ := h
          obtain ⟨hi', hy', hv'⟩ := hqual hy hi hv
          refine ⟨y, hy', ?_⟩
          rw [← hrv]
          simp only
          rw [he]
          exact hv'
      · rcases hcases.2.1 with h | h
        · -- xmax never moved from 0: the witness pixel has x = 0
          simp only at h
          refine ⟨y0, hy0', ?_⟩
          rw [← hrv]
          simp only [Nat.add_sub_cancel]
          have : i0 = (trim_rows pix ⟨false, pix.width, pix.height, 0, 0⟩
              (List.range pix.height)).xmax := by omega
          rw [← this]
          exact hv0'
        · obtain ⟨y, hy, i, hi, hv, he⟩ := h
          obtain ⟨hi', hy', hv'⟩ := hqual hy hi hv
          refine ⟨y, hy', ?_⟩
          rw [← hrv]
          simp only [Nat.add_sub_cancel]
          rw [he]
          exact hv'
      · rcases hcases.2.2.1 with h | h
        · exfalso
          simp only at h
          omega
        · obtain ⟨y, hy, ⟨i, hi, hv⟩, he⟩ := h
          obtain ⟨hi', hy', hv'⟩ := hqual hy hi hv
          refine ⟨i, hi', ?_⟩
          rw [← hrv]
          simp only
          rw [he]
          exact hv'
      · rcases hcases.2.2.2.1 with h | h
        · simp only at h
          refine ⟨i0, hi0', ?_⟩
          rw [← hrv]
          simp only [Nat.add_sub_cancel]
          have : y0 = (trim_rows pix ⟨false, pix.width, pix.height, 0, 0⟩
              (List.range pix.height)).ymax := by omega
          rw [← this]
          exact hv0'
        · obtain ⟨y, hy, ⟨i, hi, hv⟩, he⟩ := h
          obtain ⟨hi', hy', hv'⟩ := hqual hy hi hv
          refine ⟨i, hi', ?_⟩
          rw [← hrv]
          simp only [Nat.add_sub_cancel]
          rw [he]
          exact hv'
    · rw [if_neg hf] at hr
      exact absurd hr (Option.noConfusion)

/-- Witness for `trim_pixmap_spec`: a 2 by 2 pixmap with a single dark pixel
at `(1, 0)`; the tight box is `IRect 1 0 2 1`. -/
theorem trim_pixmap_spec_witness :
    trim_pixmap ⟨2, 2, [255, 100, 255, 255]⟩ = some ⟨1, 0, 2, 1⟩ ∧
    (trim_pixmap ⟨2, 2, [255, 100, 255, 255]⟩ = none ↔
      ∀ x y, x < 2 → y < 2 →
        250 ≤ pixelAt ⟨2, 2, [255, 100, 255, 255]⟩ x y) :=
  ⟨by decide, (trim_pixmap_spec ⟨2, 2, [255, 100, 255, 255]⟩ (by decide)).1⟩

/-- Claim C8: every block emitted by `find_figure_captions` is typed
`"label"` exactly when its stripped concatenated text (stored in `text`) has
length at most 5 or fully matches the pure-label pattern
`^(\([a-z0-9]+\)\s*)+$` case-insensitively; otherwise it is typed
`"caption"`. -/
theorem find_figure_captions_label_iff (blocks : List Block) (c : Caption)
    (hc : c ∈ find_figure_captions blocks) :
    (c.ctype = "label" ↔ (c.text.length ≤ 5 ∨ isPureLabel c.text = true)) ∧
    (c.ctype = "label" ∨ c.ctype = "caption") := by
  obtain ⟨b, -, hb⟩ := List.mem_filterMap.1 hc
  unfold captionOfBlock at hb
  by_cases ht : b.btype ≠ 0
  · rw [if_pos ht] at hb
    exact absurd hb (by simp)
  · rw [if_neg ht] at hb
    by_cases hm : matchesFigPattern (blockConcatText b) = true
    · rw [if_pos hm] at hb
      have hcv := Option.some.inj hb
      subst hcv
      simp only
      by_cases hl : (decide ((pyStrip (blockConcatText b)).length ≤ 5) ||
          isPureLabel (pyStrip (blockConcatText b))) = true
      · rw [if_pos hl]
        simp only [Bool.or_eq_true, decide_eq_true_eq] at hl
        exact ⟨⟨fun _ => hl, fun _ => rfl⟩, Or.inl rfl⟩
      · rw [if_neg hl]
        refine ⟨⟨fun hbad => absurd hbad (by decide), fun hcontra => ?_⟩,
          Or.inr rfl⟩
        exact absurd (by
          simp only [Bool.or_eq_true, decide_eq_true_eq]
          exact hcontra) hl
    · rw [if_neg hm] at hb
      exact absurd hb (by simp)

/-- Witness for `find_figure_captions_label_iff`: the block above yields a
`"caption"`-typed caption with stripped text of length 17. -/
theorem find_figure_captions_label_iff_witness :
    (("caption" = "label") ↔
      (("Figure 1: results" : String).length ≤ 5 ∨
        isPureLabel "Figure 1: results" = true)) ∧
    (("caption" = "label") ∨ ("caption" = "caption")) :=
  find_figure_captions_label_iff [c8block]
    ⟨"Figure 1: results", ⟨100, 500, 300, 515⟩, "caption"⟩ (by decide)

/-- Claim C2 is false as stated: a line matching the caption pattern that is
selected by the pure top-zone reason "Top Strict" (strictly above the visual
core, no opposite-column condition) IS painted over, because the Top Strict
case sets the side-erasure flag (line 767). -/
theorem c2_counterexample :
    matchCaptionLike c2item.text = true ∧
    erase_decision c2env c2item = some ("Top Strict", true) ∧
    erase_paint c2env c2item = true :=
  ⟨by decide, by decide, by decide⟩

/-- Claim C2 amended: a caption-matching line is painted over exactly when
its erase decision carries the side-erasure flag.  The flag is set not only
by the side/opposite-column cases but also by the Top Strict case, so a
caption-like line strictly above the visual core with length > 5 is painted;
a caption-like line selected only by the Top Buffer case keeps the flag
clear and is preserved. -/
theorem erase_caption_override_amended (env : EraseEnv) (item : TextItem)
    (hcap : matchCaptionLike item.text = true) :
    (erase_paint env item = true ↔
      ∃ r, erase_decision env item = some (r, true)) ∧
    (erase_case0 env item = ⟨false, "", false⟩ →
      item.rect.intersects env.rect = true →
      ¬(item.rect.y0 > env.vis_y1) →
      item.rect.y1 < env.vis_y0 - 10 →
      5 < item.len →
      erase_decision env item = some ("Top Strict", true)) ∧
    (erase_case0 env item = ⟨false, "", false⟩ →
      item.rect.intersects env.rect = true →
      ¬(item.rect.y0 > env.vis_y1) →
      ¬(item.rect.y1 < env.vis_y0 - 10) →
      item.rect.y1 < env.vis_y0 →
      15 < item.len →
      erase_decision env item = some ("Top Buffer", false)) := by
  refine ⟨?_, ?_, ?_⟩
  · cases hdec : erase_decision env item with
    | none => simp [erase_paint, hdec]
    | some p =>
      obtain ⟨r, side⟩ := p
      cases side with
      | true => simp [erase_paint, hdec]
      | false => simp [erase_paint, hdec, hcap]
  · intro hc0 hint hy0 hstrict hlen
    unfold erase_decision
    rw [if_neg (by simpa using hint)]
    rw [if_neg hy0]
    rw [hc0]
    have hchain : erase_chain env item ⟨false, "", false⟩ =
        ⟨true, "Top Strict", true⟩ := by
      unfold erase_chain
      rw [if_pos ⟨rfl, hstrict⟩, if_pos hlen]
    rw [hchain]
    simp
  · intro hc0 hint hy0 hnstrict hbuf hlen
    unfold erase_decision
    rw [if_neg (by simpa using hint)]
    rw [if_neg hy0]
    rw [hc0]
    have hchain : erase_chain env item ⟨false, "", false⟩ =
        ⟨true, "Top Buffer", false⟩ := by
      unfold erase_chain
      rw [if_neg (by
        rintro ⟨-, hs⟩
        exact hnstrict hs)]
      rw [if_pos hbuf, if_pos hlen]
    rw [hchain]
    simp

/-- Witness for `erase_caption_override_amended` at the concrete Top Buffer
line `c2bufitem`. -/
theorem erase_caption_override_amended_witness :
    (erase_paint c2env c2bufitem = true ↔
      ∃ r, erase_decision c2env c2bufitem = some (r, true)) ∧
    (erase_case0 c2env c2bufitem = ⟨false, "", false⟩ →
      c2bufitem.rect.intersects c2env.rect = true →
      ¬(c2bufitem.rect.y0 > c2env.vis_y1) →
      c2bufitem.rect.y1 < c2env.vis_y0 - 10 →
      5 < c2bufitem.len →
      erase_decision c2env c2bufitem = some ("Top Strict", true)) ∧
    (erase_case0 c2env c2bufitem = ⟨false, "", false⟩ →
      c2bufitem.rect.intersects c2env.rect = true →
      ¬(c2bufitem.rect.y0 > c2env.vis_y1) →
      ¬(c2bufitem.rect.y1 < c2env.vis_y0 - 10) →
      c2bufitem.rect.y1 < c2env.vis_y0 →
      15 < c2bufitem.len →
      erase_decision c2env c2bufitem = some ("Top Buffer", false)) :=
  erase_caption_override_amended c2env c2bufitem (by decide)

/-! Fold invariants of the associator: objects enter a group only when
absent from the used set, and the used set grows exactly by the picked
object indices. -/

theorem primaryPickStep_cases (ctx : Ctx) (c_col : Zone) (f cl : ℚ)
    (st : List (ℕ × Rect) × Finset ℕ) (p : ℕ × Rect) :
    primaryPickStep ctx c_col f cl st p = st ∨
    (p.1 ∉ st.2 ∧
      primaryPickStep ctx c_col f cl st p = (st.1 ++ [p], insert p.1 st.2)) := by
  unfold primaryPickStep
  by_cases h1 : p.1 ∈ st.2
  · rw [if_pos h1]
    exact Or.inl rfl
  · rw [if_neg h1]
    simp only
    repeat' split
    all_goals try exact Or.inl rfl
    all_goals exact Or.inr ⟨h1, rfl⟩

set_option maxHeartbeats 1600000 in
theorem expandStep_cases (ctx : Ctx)
    (st : List (ℕ × Rect) × Finset ℕ × Rect) (p : ℕ × Rect) :
    expandStep ctx st p = st ∨
    (p.1 ∉ st.2.1 ∧ ∃ u', expandStep ctx st p =
      (st.1 ++ [p], insert p.1 st.2.1, u')) := by
  unfold expandStep
  by_cases h1 : p.1 ∈ st.2.1
  · rw [if_pos h1]
    exact Or.inl rfl
  · rw [if_neg h1]
    simp only
    repeat' split
    all_goals try exact Or.inl rfl
    all_goals exact Or.inr ⟨h1, _, rfl⟩

theorem pick_fold_spec (ctx : Ctx) (c_col : Zone) (f cl : ℚ) :
    ∀ (objs : List (ℕ × Rect)) (st : List (ℕ × Rect) × Finset ℕ),
    ∃ new : List (ℕ × Rect),
      (objs.foldl (primaryPickStep ctx c_col f cl) st).1 = st.1 ++ new ∧
      (∀ p ∈ new, p.1 ∉ st.2) ∧
      (∀ i, i ∈ (objs.foldl (primaryPickStep ctx c_col f cl) st).2 ↔
        i ∈ st.2 ∨ i ∈ new.map Prod.fst) := by
  intro objs
  induction objs with
  | nil =>
    intro st
    exact ⟨[], by simp, by simp, by simp⟩
  | cons o os ih =>
    intro st
    rcases primaryPickStep_cases ctx c_col f cl st o with h | ⟨hno, h⟩
    · obtain ⟨new, h1, h2, h3⟩ := ih st
      refine ⟨new, ?_, h2, ?_⟩
      · rw [List.foldl_cons, h]
        exact h1
      · intro i
        rw [List.foldl_cons, h]
        exact h3 i
    · obtain ⟨new, h1, h2, h3⟩ := ih (st.1 ++ [o], insert o.1 st.2)
      refine ⟨o :: new, ?_, ?_, ?_⟩
      · rw [List.foldl_cons, h, h1]
        simp
      · intro p hp
        rcases List.mem_cons.1 hp with rfl | hp
        · exact hno
        · intro hmem
          exact h2 p hp (Finset.mem_insert_of_mem hmem)
      · intro i
        rw [List.foldl_cons, h, h3 i]
        simp only [Finset.mem_insert, List.map_cons, List.mem_cons]
        constructor
        · rintro ((rfl | hi) | hi)
          · exact Or.inr (Or.inl rfl)
          · exact Or.inl hi
          · exact Or.inr (Or.inr hi)
        · rintro (hi | (rfl | hi))
          · exact Or.inl (Or.inr hi)
          · exact Or.inl (Or.inl rfl)
          · exact Or.inr hi

theorem expand_fold_spec (ctx : Ctx) :
    ∀ (objs : List (ℕ × Rect)) (st : List (ℕ × Rect) × Finset ℕ × Rect),
    ∃ new : List (ℕ × Rect),
      (objs.foldl (expandStep ctx) st).1 = st.1 ++ new ∧
      (∀ p ∈ new, p.1 ∉ st.2.1) ∧
      (∀ i, i ∈ (objs.foldl (expandStep ctx) st).2.1 ↔
        i ∈ st.2.1 ∨ i ∈ new.map Prod.fst) := by
  intro objs
  induction objs with
  | nil =>
    intro st
    exact ⟨[], by simp, by simp, by simp⟩
  | cons o os ih =>
    intro st
    rcases expandStep_cases ctx st o with h | ⟨hno, u', h⟩
    · obtain ⟨new, h1, h2, h3⟩ := ih st
      refine ⟨new, ?_, h2, ?_⟩
      · rw [List.foldl_cons, h]
        exact h1
      · intro i
        rw [List.foldl_cons, h]
        exact h3 i
    · obtain ⟨new, h1, h2, h3⟩ := ih (st.1 ++ [o], insert o.1 st.2.1, u')
      refine ⟨o :: new, ?_, ?_, ?_⟩
      · rw [List.foldl_cons, h, h1]
        simp
      · intro p hp
        rcases List.mem_cons.1 hp with rfl | hp
        · exact hno
        · intro hmem
          exact h2 p hp (Finset.mem_insert_of_mem hmem)
      · intro i
        rw [List.foldl_cons, h, h3 i]
        simp only [Finset.mem_insert, List.map_cons, List.mem_cons]
        constructor
        · rintro ((rfl | hi) | hi)
          · exact Or.inr (Or.inl rfl)
          · exact Or.inl hi
          · exact Or.inr (Or.inr hi)
        · rintro (hi | (rfl | hi))
          · exact Or.inl (Or.inr hi)
          · exact Or.inl (Or.inl rfl)
          · exact Or.inr hi

theorem captionPickExpand_spec (ctx : Ctx) (used : Finset ℕ) (c_col : Zone)
    (f cl : ℚ) :
    (∀ p ∈ (captionPickExpand ctx used c_col f cl).1, p.1 ∉ used) ∧
    (∀ i, i ∈ (captionPickExpand ctx used c_col f cl).2 ↔
      i ∈ used ∨ i ∈ (captionPickExpand ctx used c_col f cl).1.map Prod.fst) := by
  obtain ⟨np, hp1, hp2, hp3⟩ := pick_fold_spec ctx c_col f cl ctx.objs ([], used)
  simp only [List.nil_append] at hp1
  by_cases hA :
      (ctx.objs.foldl (primaryPickStep ctx c_col f cl) ([], used)).1 = []
  · have hres : captionPickExpand ctx used c_col f cl =
        ctx.objs.foldl (primaryPickStep ctx c_col f cl) ([], used) := by
      unfold captionPickExpand
      rw [if_neg (not_not_intro hA)]
    rw [hres]
    constructor
    · intro p hp
      rw [hp1] at hp
      exact hp2 p hp
    · intro i
      rw [hp3 i, hp1]
  · obtain ⟨nx, hx1, hx2, hx3⟩ := expand_fold_spec ctx ctx.objs
      ((ctx.objs.foldl (primaryPickStep ctx c_col f cl) ([], used)).1,
       (ctx.objs.foldl (primaryPickStep ctx c_col f cl) ([], used)).2,
       unionOf ((ctx.objs.foldl (primaryPickStep ctx c_col f cl)
         ([], used)).1.map (fun pr => pr.2)))
    have hres : captionPickExpand ctx used c_col f cl =
        ((ctx.objs.foldl (expandStep ctx)
          ((ctx.objs.foldl (primaryPickStep ctx c_col f cl) ([], used)).1,
           (ctx.objs.foldl (primaryPickStep ctx c_col f cl) ([], used)).2,
           unionOf ((ctx.objs.foldl (primaryPickStep ctx c_col f cl)
             ([], used)).1.map (fun pr => pr.2)))).1,
         (ctx.objs.foldl (expandStep ctx)
          ((ctx.objs.foldl (primaryPickStep ctx c_col f cl) ([], used)).1,
           (ctx.objs.foldl (primaryPickStep ctx c_col f cl) ([], used)).2,
           unionOf ((ctx.objs.foldl (primaryPickStep ctx c_col f cl)
             ([], used)).1.map (fun pr => pr.2)))).2.1) := by
      unfold captionPickExpand
      rw [if_pos hA]
    rw [hres]
    simp only at hx1 hx2 hx3
    constructor
    · intro p hp
      rw [hx1] at hp
      rcases List.mem_append.1 hp with hp | hp
      · rw [hp1] at hp
        exact hp2 p hp
      · intro hmem
        exact hx2 p hp ((hp3 p.1).2 (Or.inl hmem))
    · intro i
      rw [hx3 i, hp3 i, hx1, hp1]
      simp only [List.map_append, List.mem_append]
      tauto

theorem processCaption_spec (ctx : Ctx) (st : AssocState) (cap : Caption) :
    ∃ adds : List CaptionGroup,
      (processCaption ctx st cap).groups = st.groups ++ adds ∧
      adds.Pairwise (fun g1 g2 => ∀ i ∈ g1.members, i ∉ g2.members) ∧
      (∀ g ∈ adds,
        g.capRect = cap.rect ∧ 0 ≤ g.rect.x0 ∧ g.rect.x1 ≤ ctx.pw ∧
        40 ≤ g.rect.y0 ∧ g.rect.y1 ≤ g.capRect.y0 - 5 ∧
        ∀ i ∈ g.members, i ∉ st.used) ∧
      (∀ i, i ∈ (processCaption ctx st cap).used ↔
        i ∈ st.used ∨ ∃ g ∈ adds, i ∈ g.members) := by
  set R := refineCeiling ctx (capZone ctx cap.rect) cap.rect.y0
    (ceilingFor st.ceil (capZone ctx cap.rect)) with hR
  set X := captionPickExpand ctx st.used (capZone ctx cap.rect) cap.rect.y0 R
    with hX
  obtain ⟨h1, h2⟩ := captionPickExpand_spec ctx st.used (capZone ctx cap.rect)
    cap.rect.y0 R
  have hg : (processCaption ctx st cap).groups =
      if X.1 ≠ [] then
        st.groups ++ [⟨cap.text,
          mk_final_rect ctx.pw (max 40 (R - 10)) (cap.rect.y0 - 5)
            (unionOf (X.1.map (fun pr => pr.2)))
            (pxRight ctx (unionOf (X.1.map (fun pr => pr.2)))),
          cap.rect, X.1.map Prod.fst⟩]
      else st.groups := by
    rw [hX, hR]
    rfl
  have hu : (processCaption ctx st cap).used = X.2 := by
    rw [hX, hR]
    rfl
  by_cases hA : X.1 = []
  · refine ⟨[], ?_, List.Pairwise.nil, by simp, ?_⟩
    · rw [hg, if_neg (not_not_intro hA)]
      simp
    · intro i
      rw [hu, h2 i, hA]
      simp
  · refine ⟨[⟨cap.text,
      mk_final_rect ctx.pw (max 40 (R - 10)) (cap.rect.y0 - 5)
        (unionOf (X.1.map (fun pr => pr.2)))
        (pxRight ctx (unionOf (X.1.map (fun pr => pr.2)))),
      cap.rect, X.1.map Prod.fst⟩], ?_, List.pairwise_singleton _ _, ?_, ?_⟩
    · rw [hg, if_pos hA]
    · intro g hgmem
      rw [List.mem_singleton] at hgmem
      subst hgmem
      refine ⟨rfl, le_max_left _ _, min_le_left _ _,
        le_trans (le_max_left 40 _) (le_max_left _ _), min_le_left _ _, ?_⟩
      intro i hi
      obtain ⟨p, hp, rfl⟩ := List.mem_map.1 hi
      exact h1 p hp
    · intro i
      rw [hu, h2 i]
      simp

theorem processCaption_inv (ctx : Ctx) (st : AssocState) (cap : Caption)
    (hinv : AssocInv ctx.pw st) :
    AssocInv ctx.pw (processCaption ctx st cap) := by
  obtain ⟨I1, I2, I3⟩ := hinv
  obtain ⟨adds, hg, hpw, hprop, hused⟩ := processCaption_spec ctx st cap
  refine ⟨?_, ?_, ?_⟩
  · intro g hgmem i hi
    rw [hg] at hgmem
    rcases List.mem_append.1 hgmem with hgmem | hgmem
    · exact (hused i).2 (Or.inl (I1 g hgmem i hi))
    · exact (hused i).2 (Or.inr ⟨g, hgmem, hi⟩)
  · rw [hg]
    refine List.pairwise_append.2 ⟨I2, hpw, ?_⟩
    intro a ha b hb i hia hib
    exact (hprop b hb).2.2.2.2.2 i hib (I1 a ha i hia)
  · intro g hgmem
    rw [hg] at hgmem
    rcases List.mem_append.1 hgmem with hgmem | hgmem
    · exact I3 g hgmem
    · obtain ⟨-, h2, h3, h4, h5, -⟩ := hprop g hgmem
      exact ⟨h2, h3, h4, h5⟩

theorem assoc_fold_inv (ctx : Ctx) :
    ∀ (caps : List Caption) (st : AssocState), AssocInv ctx.pw st →
    AssocInv ctx.pw (caps.foldl (processCaption ctx) st) := by
  intro caps
  induction caps with
  | nil => intro st h; exact h
  | cons c cs ih =>
    intro st h
    rw [List.foldl_cons]
    exact ih _ (processCaption_inv ctx st c h)

theorem assoc_inv (ctx : Ctx) (caps : List Caption) :
    AssocInv ctx.pw (assocState ctx caps) := by
  unfold assocState
  refine assoc_fold_inv ctx caps _ ⟨?_, ?_, ?_⟩ <;> simp

theorem orphan_inner_fold_spec (gga : Bool) (mid : ℚ) (caps : List MatchCap)
    (srcIdx : ℕ) :
    ∀ (orphs : List Rect) (d0 : List CapId) (e0 : List (ℕ × Rect)),
    (∀ o ∈ orphs, 20 < o.width ∧ 20 < o.height) →
    ∃ nd ne,
      (orphs.foldl (processOneOrphan gga mid caps srcIdx) (d0, e0)).1 =
        d0 ++ nd ∧
      (orphs.foldl (processOneOrphan gga mid caps srcIdx) (d0, e0)).2 =
        e0 ++ ne ∧
      (∀ cid ∈ nd, ∃ g ∈ caps, cid = g.gid) ∧
      (∀ pr ∈ ne, pr.1 = srcIdx ∧ 20 < pr.2.width ∧ 20 < pr.2.height) := by
  intro orphs
  induction orphs with
  | nil =>
    intro d0 e0 _
    exact ⟨[], [], by simp, by simp, by simp, by simp⟩
  | cons o os ih =>
    intro d0 e0 hbounds
    obtain ⟨how, hoh⟩ := hbounds o (List.mem_cons_self o os)
    have hrest : ∀ o' ∈ os, 20 < o'.width ∧ 20 < o'.height :=
      fun o' h => hbounds o' (List.mem_cons_of_mem o h)
    rw [List.foldl_cons]
    cases hmatch : orphanMatchFind gga mid o d0 caps with
    | some g =>
      have hgmem : g ∈ caps := List.mem_of_find?_eq_some hmatch
      have hstep : processOneOrphan gga mid caps srcIdx (d0, e0) o =
          (d0 ++ [g.gid],
           if (Rect.mk o.x0 o.y0 o.x1 (g.rect.y0 - 5)).height > 20 then
             e0 ++ [(srcIdx, ⟨o.x0, o.y0, o.x1, g.rect.y0 - 5⟩)]
           else e0) := by
        unfold processOneOrphan
        rw [hmatch]
      by_cases hcrop : (Rect.mk o.x0 o.y0 o.x1 (g.rect.y0 - 5)).height > 20
      · rw [hstep, if_pos hcrop]
        obtain ⟨nd, ne, h1, h2, h3, h4⟩ :=
          ih (d0 ++ [g.gid]) (e0 ++ [(srcIdx, ⟨o.x0, o.y0, o.x1, g.rect.y0 - 5⟩)]) hrest
        refine ⟨g.gid :: nd, (srcIdx, ⟨o.x0, o.y0, o.x1, g.rect.y0 - 5⟩) :: ne,
          ?_, ?_, ?_, ?_⟩
        · rw [h1]; simp
        · rw [h2]; simp
        · intro cid hcid
          rcases List.mem_cons.1 hcid with rfl | hcid
          · exact ⟨g, hgmem, rfl⟩
          · exact h3 cid hcid
        · intro pr hpr
          rcases List.mem_cons.1 hpr with rfl | hpr
          · exact ⟨rfl, how, hcrop⟩
          · exact h4 pr hpr
      · rw [hstep, if_neg hcrop]
        obtain ⟨nd, ne, h1, h2, h3, h4⟩ := ih (d0 ++ [g.gid]) e0 hrest
        refine ⟨g.gid :: nd, ne, ?_, h2, ?_, h4⟩
        · rw [h1]; simp
        · intro cid hcid
          rcases List.mem_cons.1 hcid with rfl | hcid
          · exact ⟨g, hgmem, rfl⟩
          · exact h3 cid hcid
    | none =>
      have hstep : processOneOrphan gga mid caps srcIdx (d0, e0) o =
          (if gga = true ∧ o.width < 15 then (d0, e0)
           else (d0, e0 ++ [(srcIdx, o)])) := by
        unfold processOneOrphan
        rw [hmatch]
      by_cases hskip : gga = true ∧ o.width < 15
      · rw [hstep, if_pos hskip]
        exact ih d0 e0 hrest
      · rw [hstep, if_neg hskip]
        obtain ⟨nd, ne, h1, h2, h3, h4⟩ := ih d0 (e0 ++ [(srcIdx, o)]) hrest
        refine ⟨nd, (srcIdx, o) :: ne, h1, ?_, h3, ?_⟩
        · rw [h2]; simp
        · intro pr hpr
          rcases List.mem_cons.1 hpr with rfl | hpr
          · exact ⟨rfl, how, hoh⟩
          · exact h4 pr hpr

theorem processLooseObject_spec (gga : Bool) (mid : ℚ) (caps : List MatchCap)
    (used : Finset ℕ) (st : OrphanState) (p : ℕ × Rect)
    (hcaps : ∀ g ∈ caps, ∃ k, g.gid = Sum.inr k)
    (hgl : ∀ ge ∈ st.groupsLeft, ∃ k, ge.1 = (Sum.inl k : CapId)) :
    (processLooseObject gga mid caps used st p).groupsLeft = st.groupsLeft ∧
    ∃ ne, (processLooseObject gga mid caps used st p).exportsO =
        st.exportsO ++ ne ∧
      ∀ pr ∈ ne, pr.1 = p.1 ∧ p.1 ∉ used ∧
        20 < pr.2.width ∧ 20 < pr.2.height := by
  by_cases h1 : p.1 ∈ used
  · have : processLooseObject gga mid caps used st p = st := by
      unfold processLooseObject
      rw [if_pos h1]
    rw [this]
    exact ⟨rfl, [], by simp, by simp⟩
  · by_cases h2 : ¬(p.2.width > 20 ∧ p.2.height > 20)
    · have : processLooseObject gga mid caps used st p = st := by
        unfold processLooseObject
        rw [if_neg h1, if_pos h2]
      rw [this]
      exact ⟨rfl, [], by simp, by simp⟩
    · rw [not_not] at h2
      have hbounds : ∀ o ∈ (if gga = true ∧ p.2.x0 < mid - 10 ∧
            p.2.x1 > mid + 10 then
          (if (Rect.mk p.2.x0 p.2.y0 (mid - 5) p.2.y1).width > 20 then
            [(⟨p.2.x0, p.2.y0, mid - 5, p.2.y1⟩ : Rect)] else []) ++
          (if (Rect.mk (mid + 5) p.2.y0 p.2.x1 p.2.y1).width > 20 then
            [(⟨mid + 5, p.2.y0, p.2.x1, p.2.y1⟩ : Rect)] else [])
          else [p.2]), 20 < o.width ∧ 20 < o.height := by
        intro o ho
        split at ho
        · rcases List.mem_append.1 ho with ho | ho <;> split at ho
          all_goals simp only [List.mem_singleton, List.not_mem_nil] at ho
          all_goals subst ho
          all_goals exact ⟨by assumption, h2.2⟩
        · rw [List.mem_singleton] at ho
          subst ho
          exact h2
      obtain ⟨nd, ne, hd, he, hnd, hne⟩ := orphan_inner_fold_spec gga mid caps
        p.1 _ [] st.exportsO hbounds
      have hres : processLooseObject gga mid caps used st p =
          ⟨((if gga = true ∧ p.2.x0 < mid - 10 ∧ p.2.x1 > mid + 10 then
              (if (Rect.mk p.2.x0 p.2.y0 (mid - 5) p.2.y1).width > 20 then
                [(⟨p.2.x0, p.2.y0, mid - 5, p.2.y1⟩ : Rect)] else []) ++
              (if (Rect.mk (mid + 5) p.2.y0 p.2.x1 p.2.y1).width > 20 then
                [(⟨mid + 5, p.2.y0, p.2.x1, p.2.y1⟩ : Rect)] else [])
              else [p.2]).foldl (processOneOrphan gga mid caps p.1)
              ([], st.exportsO)).2,
            st.groupsLeft.filter (fun g =>
              decide (g.1 ∉ ((if gga = true ∧ p.2.x0 < mid - 10 ∧
                  p.2.x1 > mid + 10 then
                (if (Rect.mk p.2.x0 p.2.y0 (mid - 5) p.2.y1).width > 20 then
                  [(⟨p.2.x0, p.2.y0, mid - 5, p.2.y1⟩ : Rect)] else []) ++
                (if (Rect.mk (mid + 5) p.2.y0 p.2.x1 p.2.y1).width > 20 then
                  [(⟨mid + 5, p.2.y0, p.2.x1, p.2.y1⟩ : Rect)] else [])
                else [p.2]).foldl (processOneOrphan gga mid caps p.1)
                ([], st.exportsO)).1)),
            st.matched ++ ((if gga = true ∧ p.2.x0 < mid - 10 ∧
                p.2.x1 > mid + 10 then
              (if (Rect.mk p.2.x0 p.2.y0 (mid - 5) p.2.y1).width > 20 then
                [(⟨p.2.x0, p.2.y0, mid - 5, p.2.y1⟩ : Rect)] else []) ++
              (if (Rect.mk (mid + 5) p.2.y0 p.2.x1 p.2.y1).width > 20 then
                [(⟨mid + 5, p.2.y0, p.2.x1, p.2.y1⟩ : Rect)] else [])
              else [p.2]).foldl (processOneOrphan gga mid caps p.1)
              ([], st.exportsO)).1⟩ := by
        unfold processLooseObject
        rw [if_neg h1, if_neg (not_not_intro h2)]
      rw [hres]
      refine ⟨?_, ne, ?_, ?_⟩
      · simp only
        refine List.filter_eq_self.2 ?_
        intro ge hge
        obtain ⟨k, hk⟩ := hgl ge hge
        rw [hd, List.nil_append]
        refine decide_eq_true ?_
        intro hmem
        obtain ⟨g, hgmem, hgid⟩ := hnd ge.1 hmem
        obtain ⟨k', hk'⟩ := hcaps g hgmem
        rw [hk, hk'] at hgid
        exact Sum.noConfusion hgid
      · simp only
        exact he
      · intro pr hpr
        obtain ⟨ha, hb, hc⟩ := hne pr hpr
        exact ⟨ha, h1, hb, hc⟩

theorem orphan_fold_spec (gga : Bool) (mid : ℚ) (caps : List MatchCap)
    (used : Finset ℕ)
    (hcaps : ∀ g ∈ caps, ∃ k, g.gid = Sum.inr k) :
    ∀ (objs : List (ℕ × Rect)) (st : OrphanState),
    (∀ ge ∈ st.groupsLeft, ∃ k, ge.1 = (Sum.inl k : CapId)) →
    (∀ pr ∈ st.exportsO, pr.1 ∉ used ∧ 20 < pr.2.width ∧ 20 < pr.2.height) →
    ((objs.foldl (processLooseObject gga mid caps used) st).groupsLeft =
        st.groupsLeft ∧
      ∀ pr ∈ (objs.foldl (processLooseObject gga mid caps used) st).exportsO,
        pr.1 ∉ used ∧ 20 < pr.2.width ∧ 20 < pr.2.height) := by
  intro objs
  induction objs with
  | nil =>
    intro st hgl he
    exact ⟨rfl, he⟩
  | cons p ps ih =>
    intro st hgl he
    obtain ⟨hstep_gl, ne, hstep_e, hne⟩ :=
      processLooseObject_spec gga mid caps used st p hcaps hgl
    rw [List.foldl_cons]
    obtain ⟨hgl', he'⟩ := ih (processLooseObject gga mid caps used st p)
      (by rw [hstep_gl]; exact hgl)
      (by
        rw [hstep_e]
        intro pr hpr
        rcases List.mem_append.1 hpr with hpr | hpr
        · exact he pr hpr
        · obtain ⟨ha, hb, hc, hd⟩ := hne pr hpr
          rw [ha]
          exact ⟨hb, hc, hd⟩)
    rw [hgl', hstep_gl] at *
    exact ⟨rfl, he'⟩

theorem assembleResult_inv (ctx : Ctx) (sorted : List Caption) :
    ((assembleResult ctx sorted).caption_groups.Pairwise
        (fun g1 g2 => ∀ i ∈ g1.members, i ∉ g2.members)) ∧
    (∀ g ∈ (assembleResult ctx sorted).caption_groups, ∀ i ∈ g.members,
        i ∈ (assembleResult ctx sorted).used_final) ∧
    (∀ g ∈ (assembleResult ctx sorted).caption_groups,
        0 ≤ g.rect.x0 ∧ g.rect.x1 ≤ ctx.pw ∧ 40 ≤ g.rect.y0 ∧
        g.rect.y1 ≤ g.capRect.y0 - 5) ∧
    ((assembleResult ctx sorted).groups_after.map (fun pr => pr.2) =
        (assembleResult ctx sorted).caption_groups) ∧
    (∀ pr ∈ (assembleResult ctx sorted).orphans,
        pr.1 ∉ (assembleResult ctx sorted).used_final ∧
        20 < pr.2.width ∧ 20 < pr.2.height) ∧
    (∀ g ∈ (assembleResult ctx sorted).caption_groups,
        g.rect ∈ (assembleResult ctx sorted).valid_final_rects) := by
  obtain ⟨I1, I2, I3⟩ := assoc_inv ctx sorted
  have hcapsM : ∀ g ∈ sorted.enum.map
      (fun p => MatchCap.mk p.2.text p.2.rect (Sum.inr p.1)),
      ∃ k, g.gid = Sum.inr k := by
    intro g hg
    obtain ⟨p, -, rfl⟩ := List.mem_map.1 hg
    exact ⟨p.1, rfl⟩
  have hgl0 : ∀ ge ∈ (assocState ctx sorted).groups.enum.map
      (fun p => ((Sum.inl p.1 : CapId), p.2)),
      ∃ k, ge.1 = (Sum.inl k : CapId) := by
    intro ge hge
    obtain ⟨p, -, rfl⟩ := List.mem_map.1 hge
    exact ⟨p.1, rfl⟩
  obtain ⟨hGL, hEX⟩ := orphan_fold_spec ctx.gga ctx.mid
    (sorted.enum.map (fun p => MatchCap.mk p.2.text p.2.rect (Sum.inr p.1)))
    (assocState ctx sorted).used hcapsM ctx.objs
    ⟨[], (assocState ctx sorted).groups.enum.map
      (fun p => ((Sum.inl p.1 : CapId), p.2)), []⟩
    hgl0 (by simp)
  have hga : (assembleResult ctx sorted).groups_after =
      (assocState ctx sorted).groups.enum.map
        (fun p => ((Sum.inl p.1 : CapId), p.2)) := hGL
  have hor : ∀ pr ∈ (assembleResult ctx sorted).orphans,
      pr.1 ∉ (assocState ctx sorted).used ∧
      20 < pr.2.width ∧ 20 < pr.2.height := hEX
  refine ⟨I2, I1, I3, ?_, hor, ?_⟩
  · rw [hga, List.map_map]
    have : ((fun pr => pr.2) ∘ fun p : ℕ × CaptionGroup =>
        ((Sum.inl p.1 : CapId), p.2)) = Prod.snd := rfl
    rw [this, List.enum_map_snd]
    rfl
  · intro g hg
    have hvr : (assembleResult ctx sorted).valid_final_rects =
        (assembleResult ctx sorted).groups_after.map (fun ge => ge.2.rect) ++
        (assembleResult ctx sorted).orphans.map (fun pr => pr.2) := rfl
    rw [hvr, hga]
    refine List.mem_append_left _ ?_
    rw [List.map_map]
    refine List.mem_map.2 ?_
    obtain ⟨i, hi⟩ := List.mem_iff_get.1 hg
    refine ⟨(i.1, g), ?_, rfl⟩
    rw [List.mem_enum_iff_getElem?]
    rw [← hi]
    exact List.getElem?_eq_getElem _

theorem extract_vectors_page_cases (page : Page) :
    extract_vectors_page page =
      (⟨page.width / 2, false, [], [], ∅, [], [], [], []⟩ : PageResult) ∨
    ∃ (ctx : Ctx) (sorted : List Caption),
      extract_vectors_page page = assembleResult ctx sorted ∧
      ctx.pw = page.width := by
  by_cases hd : page.drawings.isEmpty
  · left
    unfold extract_vectors_page
    rw [if_pos hd]
  · right
    refine ⟨pageCtx page, pageSorted page, ?_, rfl⟩
    unfold extract_vectors_page
    rw [if_neg hd]

theorem page_pipeline_inv (page : Page) :
    ((extract_vectors_page page).caption_groups.Pairwise
        (fun g1 g2 => ∀ i ∈ g1.members, i ∉ g2.members)) ∧
    (∀ g ∈ (extract_vectors_page page).caption_groups, ∀ i ∈ g.members,
        i ∈ (extract_vectors_page page).used_final) ∧
    (∀ g ∈ (extract_vectors_page page).caption_groups,
        0 ≤ g.rect.x0 ∧ g.rect.x1 ≤ page.width ∧ 40 ≤ g.rect.y0 ∧
        g.rect.y1 ≤ g.capRect.y0 - 5) ∧
    ((extract_vectors_page page).groups_after.map (fun pr => pr.2) =
        (extract_vectors_page page).caption_groups) ∧
    (∀ pr ∈ (extract_vectors_page page).orphans,
        pr.1 ∉ (extract_vectors_page page).used_final ∧
        20 < pr.2.width ∧ 20 < pr.2.height) ∧
    (∀ g ∈ (extract_vectors_page page).caption_groups,
        g.rect ∈ (extract_vectors_page page).valid_final_rects) := by
  rcases extract_vectors_page_cases page with h | ⟨ctx, sorted, h, hpw⟩
  · rw [h]
    exact ⟨List.Pairwise.nil, by simp, by simp, by simp, by simp, by simp⟩
  · rw [h, ← hpw]
    exact assembleResult_inv ctx sorted

/-- Claim C1 (counterexample): on `c1page` — a single visible drawing
sticking out of the left page edge and no text — the pipeline emits the
orphan rect ⟨-50,100,100,200⟩ untouched, so an emitted region has x0 < 0
and does not lie inside the page rectangle. -/
theorem c1_counterexample :
    (extract_vectors_page c1page).valid_final_rects =
      [⟨-50, 100, 100, 200⟩] ∧
    ∃ r ∈ (extract_vectors_page c1page).valid_final_rects, r.x0 < 0 := by
  decide

/-- Claim C1 (amended): caption-group regions are clamped into the page
horizontally (0 ≤ x0 and x1 ≤ page width) and start at or below the 40 pt
top margin; exported orphan regions always have width > 20 and height > 20
(under PyMuPDF's absolute-value width/height), but no page clamping is
applied to them. -/
theorem emitted_regions_amended (page : Page) :
    (∀ g ∈ (extract_vectors_page page).caption_groups,
      0 ≤ g.rect.x0 ∧ g.rect.x1 ≤ page.width ∧ 40 ≤ g.rect.y0) ∧
    (∀ pr ∈ (extract_vectors_page page).orphans,
      20 < pr.2.width ∧ 20 < pr.2.height) := by
  obtain ⟨-, -, h3, -, h5, -⟩ := page_pipeline_inv page
  exact ⟨fun g hg => ⟨(h3 g hg).1, (h3 g hg).2.1, (h3 g hg).2.2.1⟩,
    fun pr hpr => (h5 pr hpr).2⟩

/-- Claim C6 (counterexample): on `c6page` the only caption (sorted index
0, rect ⟨100,500,300,515⟩) is filled — it owns the unique caption group —
yet the loose object below it still matches that caption
(`matchedCapIds = [Sum.inr 0]`), and the caption-group region
⟨80,276,320,474⟩ still remains among the emitted regions alongside the
cropped orphan. -/
theorem c6_counterexample :
    (extract_vectors_page c6page).matchedCapIds = [Sum.inr 0] ∧
    ((extract_vectors_page c6page).caption_groups.map (fun g => g.capRect)) =
      [⟨100, 500, 300, 515⟩] ∧
    (pageSorted c6page).map (fun c => c.rect) = [⟨100, 500, 300, 515⟩] ∧
    (extract_vectors_page c6page).valid_final_rects =
      [⟨80, 276, 320, 474⟩, ⟨100, 560, 300, 495⟩] := by
  decide

/-- Claim C6 (amended): orphan matching scans all main captions of the
page, filled or not (only captions already matched by an earlier orphan of
the same loose object are skipped), and a match never removes the caption's
group region: the deletion keys by the identity of fresh matching dicts
while the group map keys by the identity of the group dicts, so every
caption-group region survives to the emitted regions. -/
theorem orphan_matching_amended (page : Page) :
    ((extract_vectors_page page).groups_after.map (fun pr => pr.2) =
      (extract_vectors_page page).caption_groups) ∧
    (∀ g ∈ (extract_vectors_page page).caption_groups,
      g.rect ∈ (extract_vectors_page page).valid_final_rects) := by
  obtain ⟨-, -, -, h4, -, h6⟩ := page_pipeline_inv page
  exact ⟨h4, h6⟩

/-- Claim C7 (counterexample): on `c7page` the drawing spans y 100-320 and
the caption block sits inside it at y 150-165; the caption matches no group
and the orphan fails the `is_below` test, so the full orphan is exported
and overlaps the caption-type rect by 15 pt > 5 pt in y. -/
theorem c7_counterexample :
    ∃ r ∈ (extract_vectors_page c7page).valid_final_rects,
      ∃ c ∈ find_figure_captions c7page.blocks,
        c.ctype = "caption" ∧ 5 < min r.y1 c.rect.y1 - max r.y0 c.rect.y0 := by
  decide

/-- Claim C7 (amended): the 5 pt floor gap holds between a caption-group
region and its OWN caption only: every caption group's rect ends at least
5 pt above its own caption's top (y1 ≤ capRect.y0 - 5).  Emitted orphan
regions (and group regions versus other captions) can overlap caption
rects arbitrarily. -/
theorem region_caption_gap_amended (page : Page) :
    ∀ g ∈ (extract_vectors_page page).caption_groups,
      g.rect.y1 ≤ g.capRect.y0 - 5 := by
  obtain ⟨-, -, h3, -, -, -⟩ := page_pipeline_inv page
  exact fun g hg => (h3 g hg).2.2.2

/-- Witness for the amended C7 theorem at the concrete page `c6page`: its
unique caption group has rect y1 = 474 and caption top 500, and
474 ≤ 500 - 5. -/
theorem region_caption_gap_amended_witness :
    ((⟨"Figure 1: results", ⟨80, 276, 320, 474⟩, ⟨100, 500, 300, 515⟩,
        [0]⟩ : CaptionGroup) ∈ (extract_vectors_page c6page).caption_groups) ∧
    ((⟨"Figure 1: results", ⟨80, 276, 320, 474⟩, ⟨100, 500, 300, 515⟩,
        [0]⟩ : CaptionGroup).rect.y1 ≤
      (⟨"Figure 1: results", ⟨80, 276, 320, 474⟩, ⟨100, 500, 300, 515⟩,
        [0]⟩ : CaptionGroup).capRect.y0 - 5) :=
  ⟨by decide, region_caption_gap_amended c6page _ (by decide)⟩

/-- Claim C10: each visual object joins at most one caption group — the
members of distinct groups are disjoint, every member index is in the final
used set, and no orphan export comes from an object in the used set. -/
theorem object_single_assignment (page : Page) :
    ((extract_vectors_page page).caption_groups.Pairwise
      (fun g1 g2 => ∀ i ∈ g1.members, i ∉ g2.members)) ∧
    (∀ g ∈ (extract_vectors_page page).caption_groups, ∀ i ∈ g.members,
      i ∈ (extract_vectors_page page).used_final) ∧
    (∀ pr ∈ (extract_vectors_page page).orphans,
      pr.1 ∉ (extract_vectors_page page).used_final) := by
  obtain ⟨h1, h2, -, -, h5, -⟩ := page_pipeline_inv page
  exact ⟨h1, h2, fun pr hpr => (h5 pr hpr).1⟩

end GhostPDF
